import Mathlib

/-!
Verification of the labcode-sim lab server core
(`lab_server.py`, `lib_operator.py`, `storage_writer.py`, `storage_service.py`).

The Python source is shallowly embedded: pure functions become Lean
functions, the HTTP / storage / randomness side effects become explicit
oracle ("environment") parameters and event traces, and raised Python
exceptions become `Except.error` values (or a `raised` flag where the code
continues to mutate state before raising).

Modelling conventions, used throughout:
* Python `list(set(xs))` iterates in an implementation-defined (hash based)
  order; we model it as first-occurrence deduplication (`dedupFirst`), the
  canonical deterministic choice.
* `requests.post` / `requests.patch` responses are supplied by the
  environment; a call that raises a network exception is modelled by the
  corresponding `...Raises` oracle returning `true`.
* byte strings are modelled as `String`.
-/

/-! ## Topological scheduler: `create_plan` (lab_server.py lines 346-373) -/

abbrev Node := String

/-- First-occurrence deduplication, with an accumulator of already kept
elements.  Models Python's `list(set(xs))` (see module docstring). -/
def dedupFirstAux {α : Type} [DecidableEq α] : List α → List α → List α
  | _, [] => []
  | acc, x :: xs =>
    if x ∈ acc then dedupFirstAux acc xs else x :: dedupFirstAux (x :: acc) xs

def dedupFirst {α : Type} [DecidableEq α] (l : List α) : List α := dedupFirstAux [] l

/-- Children of `u` in edge-list order: `graph[u]` after the
`graph[edge[0]].append(edge[1])` loop (lines 356-358). -/
def childrenOf (g : List (Node × Node)) (u : Node) : List Node :=
  (g.filter (fun e => e.1 == u)).map (fun e => e.2)

/-- `node_list` (line 355): all endpoints of the edge list, deduplicated. -/
def nodesOf (g : List (Node × Node)) : List Node :=
  dedupFirst (g.map Prod.fst ++ g.map Prod.snd)

/-- The mutable state of the Python DFS: the `seen` dictionary (as the list
of nodes marked `True`) and `ret_list`.  `ret` here is kept newest-first,
so that it equals the Python `ret_list` after the final `reverse()`. -/
structure DfsSt where
  seen : List Node
  ret : List Node
deriving Repr, DecidableEq

/-- The recursive `dfs` of `create_plan` (lines 363-369), fuel-indexed to
make the recursion structural.  Marks the node seen, folds over its
children recursing on the unseen ones, then prepends the node to `ret`
(prepending = Python's append followed by the final reverse). -/
def dfs (g : List (Node × Node)) : Nat → Node → DfsSt → DfsSt
  | 0, _, s => s
  | fuel + 1, node, s =>
    let s2 := (childrenOf g node).foldl
      (fun acc c => if c ∈ acc.seen then acc else dfs g fuel c acc)
      ⟨node :: s.seen, s.ret⟩
    ⟨s2.seen, node :: s2.ret⟩

/-- `create_plan` (lines 346-373): dedup the edge list, build the node
list, run the seen-flag DFS from every not-yet-seen node, reverse the
postorder.  The fuel `(nodesOf ..).length` is shown sufficient below. -/
def create_plan (connections : List (Node × Node)) : List Node :=
  let edge_list := dedupFirst connections
  let node_list := nodesOf edge_list
  (node_list.foldl
    (fun acc node =>
      if node ∈ acc.seen then acc else dfs edge_list node_list.length node acc)
    ⟨[], []⟩).ret

example : create_plan [("a", "b")] = ["a", "b"] := by decide
example : create_plan [("a", "b"), ("c", "d")] = ["c", "d", "a", "b"] := by decide
example : create_plan [("a", "b"), ("b", "a")] = ["a", "b"] := by decide
example : create_plan [] = [] := by decide

/-! ### Basic lemmas about `dedupFirst` -/

theorem mem_dedupFirstAux {α : Type} [DecidableEq α] (l : List α) :
    ∀ acc x, x ∈ dedupFirstAux acc l ↔ (x ∈ l ∧ x ∉ acc) := by
  induction l with
  | nil => intro acc x; simp [dedupFirstAux]
  | cons a as ih =>
    intro acc x
    by_cases h : a ∈ acc
    · simp only [dedupFirstAux, if_pos h, ih]
      constructor
      · rintro ⟨h1, h2⟩; exact ⟨List.mem_cons_of_mem a h1, h2⟩
      · rintro ⟨h1, h2⟩
        rcases List.mem_cons.mp h1 with rfl | h1
        · exact absurd h h2
        · exact ⟨h1, h2⟩
    · simp only [dedupFirstAux, if_neg h]
      by_cases hx : x = a
      · subst hx
        simp [h]
      · simp only [List.mem_cons, hx, false_or, ih, List.mem_cons]

theorem mem_dedupFirst {α : Type} [DecidableEq α] (l : List α) (x : α) :
    x ∈ dedupFirst l ↔ x ∈ l := by
  simp [dedupFirst, mem_dedupFirstAux]

theorem nodup_dedupFirstAux {α : Type} [DecidableEq α] (l : List α) :
    ∀ acc, (dedupFirstAux acc l).Nodup := by
  induction l with
  | nil => intro acc; simp [dedupFirstAux]
  | cons a as ih =>
    intro acc
    by_cases h : a ∈ acc
    · simpa [dedupFirstAux, if_pos h] using ih acc
    · simp only [dedupFirstAux, if_neg h]
      refine List.nodup_cons.mpr ⟨?_, ih (a :: acc)⟩
      intro hmem
      exact ((mem_dedupFirstAux as (a :: acc) a).mp hmem).2 (List.mem_cons_self a acc)

theorem nodup_dedupFirst {α : Type} [DecidableEq α] (l : List α) : (dedupFirst l).Nodup :=
  nodup_dedupFirstAux l []

theorem mem_nodesOf (g : List (Node × Node)) (x : Node) :
    x ∈ nodesOf g ↔ (∃ e ∈ g, e.1 = x ∨ e.2 = x) := by
  simp only [nodesOf, mem_dedupFirst, List.mem_append, List.mem_map]
  constructor
  · rintro (⟨e, he, rfl⟩ | ⟨e, he, rfl⟩)
    · exact ⟨e, he, Or.inl rfl⟩
    · exact ⟨e, he, Or.inr rfl⟩
  · rintro ⟨e, he, rfl | rfl⟩
    · exact Or.inl ⟨e, he, rfl⟩
    · exact Or.inr ⟨e, he, rfl⟩

/-! ### Acyclicity -/

/-- The edge relation of an edge list. -/
def EdgeRel (g : List (Node × Node)) (u v : Node) : Prop := (u, v) ∈ g

/-- An edge list is acyclic when no node reaches itself through a
non-empty path. -/
def Acyclic (g : List (Node × Node)) : Prop :=
  ∀ u, ¬ Relation.TransGen (EdgeRel g) u u

/-- A strictly monotone rank function witnesses acyclicity (used to
discharge `Acyclic` hypotheses at concrete inputs). -/
theorem acyclic_of_rank (g : List (Node × Node)) (f : Node → Nat)
    (h : ∀ e ∈ g, f e.1 < f e.2) : Acyclic g := by
  have step : ∀ u v, Relation.TransGen (EdgeRel g) u v → f u < f v := by
    intro u v huv
    induction huv with
    | single h1 => exact h _ h1
    | tail _ h2 ih => exact lt_trans ih (h _ h2)
  intro u hu
  exact absurd (step u u hu) (lt_irrefl _)

theorem edgeRel_dedupFirst (g : List (Node × Node)) (u v : Node) :
    EdgeRel (dedupFirst g) u v ↔ EdgeRel g u v := by
  simp [EdgeRel, mem_dedupFirst]

theorem acyclic_dedupFirst (g : List (Node × Node)) (h : Acyclic g) :
    Acyclic (dedupFirst g) := by
  intro u hu
  exact h u (Relation.TransGen.mono (fun a b hab => (edgeRel_dedupFirst g a b).mp hab) hu)

/-! ### Correctness of the DFS in `create_plan` -/

theorem mem_childrenOf (g : List (Node × Node)) (u c : Node) :
    c ∈ childrenOf g u ↔ (u, c) ∈ g := by
  simp only [childrenOf, List.mem_map, List.mem_filter, beq_iff_eq]
  constructor
  · rintro ⟨e, ⟨he, rfl⟩, rfl⟩
    exact he
  · intro h
    exact ⟨(u, c), ⟨h, rfl⟩, rfl⟩

theorem fst_mem_nodesOf (g : List (Node × Node)) (u v : Node) (h : (u, v) ∈ g) :
    u ∈ nodesOf g :=
  (mem_nodesOf g u).mpr ⟨(u, v), h, Or.inl rfl⟩

theorem snd_mem_nodesOf (g : List (Node × Node)) (u v : Node) (h : (u, v) ∈ g) :
    v ∈ nodesOf g :=
  (mem_nodesOf g v).mpr ⟨(u, v), h, Or.inr rfl⟩

theorem length_le_of_nodup_subset (l m : List Node) (hn : l.Nodup)
    (hs : ∀ x ∈ l, x ∈ m) : l.length ≤ m.length :=
  (hn.subperm hs).length_le

/-- The invariant the DFS maintains on its state: both lists are
duplicate-free, finished nodes are marked seen, seen nodes are graph
nodes, and every edge out of a finished node already has both endpoints
in `ret` in source-before-target order. -/
structure DfsInv (g : List (Node × Node)) (s : DfsSt) : Prop where
  seen_nodup : s.seen.Nodup
  ret_nodup : s.ret.Nodup
  ret_seen : ∀ x ∈ s.ret, x ∈ s.seen
  seen_nodes : ∀ x ∈ s.seen, x ∈ nodesOf g
  edge_sublist : ∀ u v, EdgeRel g u v → u ∈ s.ret → [u, v].Sublist s.ret

/-- Every gray node (seen but not finished) lies on the current call
stack, hence has a path to the node being visited. -/
abbrev GrayTo (g : List (Node × Node)) (s : DfsSt) (node : Node) : Prop :=
  ∀ x ∈ s.seen, x ∉ s.ret → Relation.ReflTransGen (EdgeRel g) x node

/-- Specification of one completed `dfs` call: it extends `seen` and `ret`
by the same set of fresh nodes (so gray nodes are unchanged), finishes the
visited node, and preserves the invariant. -/
theorem dfs_spec (g : List (Node × Node)) (hg : Acyclic g) :
    ∀ fuel node s, DfsInv g s → node ∉ s.seen → node ∈ nodesOf g →
      GrayTo g s node → (nodesOf g).length ≤ fuel + s.seen.length →
      ∃ q r, (dfs g fuel node s).seen = q ++ s.seen ∧
        (dfs g fuel node s).ret = r ++ s.ret ∧ node ∈ q ∧
        (∀ x, x ∈ q ↔ x ∈ r) ∧ (∀ x ∈ q, x ∉ s.seen) ∧
        DfsInv g (dfs g fuel node s) := by
  intro fuel
  induction fuel with
  | zero =>
    intro node s hinv hns hnn _ hfuel
    exfalso
    have hsub : ∀ x ∈ node :: s.seen, x ∈ nodesOf g := by
      intro x hx
      rcases List.mem_cons.mp hx with rfl | hx
      · exact hnn
      · exact hinv.seen_nodes x hx
    have hnd : (node :: s.seen).Nodup := List.nodup_cons.mpr ⟨hns, hinv.seen_nodup⟩
    have := length_le_of_nodup_subset _ _ hnd hsub
    simp only [List.length_cons] at this
    omega
  | succ n ih =>
    intro node s hinv hns hnn hgray hfuel
    -- the fold over the children, processed by an inner induction
    have hfold : ∀ (cs : List Node) (s1 : DfsSt), (∀ c ∈ cs, EdgeRel g node c) → DfsInv g s1 →
        node ∈ s1.seen → node ∉ s1.ret → GrayTo g s1 node →
        (nodesOf g).length ≤ n + s1.seen.length →
        ∃ q r,
          (cs.foldl (fun acc c => if c ∈ acc.seen then acc else dfs g n c acc) s1).seen
            = q ++ s1.seen ∧
          (cs.foldl (fun acc c => if c ∈ acc.seen then acc else dfs g n c acc) s1).ret
            = r ++ s1.ret ∧
          (∀ x, x ∈ q ↔ x ∈ r) ∧ (∀ x ∈ q, x ∉ s1.seen) ∧
          DfsInv g (cs.foldl (fun acc c => if c ∈ acc.seen then acc else dfs g n c acc) s1) ∧
          (∀ c ∈ cs, c ∈
            (cs.foldl (fun acc c => if c ∈ acc.seen then acc else dfs g n c acc) s1).ret) := by
      intro cs
      induction cs with
      | nil =>
        intro s1 _ hinv1 _ _ _ _
        exact ⟨[], [], rfl, rfl, by simp, by simp, hinv1, by simp⟩
      | cons c cs' ihc =>
        intro s1 hcs hinv1 hnode1 hnret1 hgray1 hfuel1
        have hedge : EdgeRel g node c := hcs c (List.mem_cons_self c cs')
        simp only [List.foldl_cons]
        by_cases hc : c ∈ s1.seen
        · -- child already seen: by acyclicity it must be finished
          have hcr : c ∈ s1.ret := by
            by_contra hcr
            have hpath := hgray1 c hc hcr
            exact hg node (Relation.TransGen.head' hedge hpath)
          rw [if_pos hc]
          obtain ⟨q, r, h1, h2, h3, h4, h5, h6⟩ :=
            ihc s1 (fun x hx => hcs x (List.mem_cons_of_mem c hx)) hinv1 hnode1 hnret1
              hgray1 hfuel1
          refine ⟨q, r, h1, h2, h3, h4, h5, fun c' hc' => ?_⟩
          rcases List.mem_cons.mp hc' with rfl | hc'
          · rw [h2]
            exact List.mem_append_right r hcr
          · exact h6 c' hc'
        · -- child unseen: recurse into it
          rw [if_neg hc]
          have hcn : c ∈ nodesOf g := snd_mem_nodesOf g node c hedge
          have hgrayc : GrayTo g s1 c := by
            intro x hx hxr
            exact (hgray1 x hx hxr).tail hedge
          obtain ⟨qc, rc, hseen, hret, hcq, hqr, hqnot, hinv2⟩ :=
            ih c s1 hinv1 hc hcn hgrayc hfuel1
          -- preconditions for the remaining children from the new state
          have hnode2 : node ∈ (dfs g n c s1).seen := by
            rw [hseen]; exact List.mem_append_right qc hnode1
          have hnret2 : node ∉ (dfs g n c s1).ret := by
            rw [hret]
            intro hmem
            rcases List.mem_append.mp hmem with hmem | hmem
            · exact hqnot node ((hqr node).mpr hmem) hnode1
            · exact hnret1 hmem
          have hgray2 : GrayTo g (dfs g n c s1) node := by
            intro x hx hxr
            rw [hseen] at hx
            rcases List.mem_append.mp hx with hx | hx
            · exact absurd (by rw [hret]; exact List.mem_append_left s1.ret ((hqr x).mp hx)) hxr
            · refine hgray1 x hx (fun hx' => hxr ?_)
              rw [hret]; exact List.mem_append_right rc hx'
          have hfuel2 : (nodesOf g).length ≤ n + (dfs g n c s1).seen.length := by
            rw [hseen, List.length_append]
            omega
          obtain ⟨q', r', h1, h2, h3, h4, h5, h6⟩ :=
            ihc (dfs g n c s1) (fun x hx => hcs x (List.mem_cons_of_mem c hx)) hinv2
              hnode2 hnret2 hgray2 hfuel2
          refine ⟨q' ++ qc, r' ++ rc, ?_, ?_, ?_, ?_, h5, ?_⟩
          · rw [h1, hseen, List.append_assoc]
          · rw [h2, hret, List.append_assoc]
          · intro x
            simp only [List.mem_append]
            constructor
            · rintro (hx | hx)
              · exact Or.inl ((h3 x).mp hx)
              · exact Or.inr ((hqr x).mp hx)
            · rintro (hx | hx)
              · exact Or.inl ((h3 x).mpr hx)
              · exact Or.inr ((hqr x).mpr hx)
          · intro x hx
            rcases List.mem_append.mp hx with hx | hx
            · intro hmem
              exact h4 x hx (by rw [hseen]; exact List.mem_append_right qc hmem)
            · exact hqnot x hx
          · intro c' hc'
            rcases List.mem_cons.mp hc' with rfl | hc'
            · rw [h2]
              have hcr2 : c' ∈ (dfs g n c' s1).ret := by
                rw [hret]
                exact List.mem_append_left s1.ret ((hqr c').mp hcq)
              exact List.mem_append_right r' hcr2
            · exact h6 c' hc'
    -- assemble the (n+1) step
    have hinv1 : DfsInv g ⟨node :: s.seen, s.ret⟩ := by
      refine ⟨List.nodup_cons.mpr ⟨hns, hinv.seen_nodup⟩, hinv.ret_nodup, ?_, ?_,
        hinv.edge_sublist⟩
      · intro x hx
        exact List.mem_cons_of_mem node (hinv.ret_seen x hx)
      · intro x hx
        rcases List.mem_cons.mp hx with rfl | hx
        · exact hnn
        · exact hinv.seen_nodes x hx
    have hnret1 : node ∉ (⟨node :: s.seen, s.ret⟩ : DfsSt).ret := by
      intro hmem
      exact hns (hinv.ret_seen node hmem)
    have hgray1 : GrayTo g ⟨node :: s.seen, s.ret⟩ node := by
      intro x hx hxr
      rcases List.mem_cons.mp hx with rfl | hx
      · exact Relation.ReflTransGen.refl
      · exact hgray x hx hxr
    have hfuel1 : (nodesOf g).length ≤ n + (⟨node :: s.seen, s.ret⟩ : DfsSt).seen.length := by
      simp only [List.length_cons]
      omega
    obtain ⟨q2, r2, hseen2, hret2, hqr2, hqnot2, hinv2, hchild⟩ :=
      hfold (childrenOf g node) ⟨node :: s.seen, s.ret⟩
        (fun c hc => (mem_childrenOf g node c).mp hc) hinv1
        (List.mem_cons_self node s.seen) hnret1 hgray1 hfuel1
    set s2 := (childrenOf g node).foldl
      (fun acc c => if c ∈ acc.seen then acc else dfs g n c acc)
      (⟨node :: s.seen, s.ret⟩ : DfsSt) with hs2
    have hdfs : dfs g (n + 1) node s = ⟨s2.seen, node :: s2.ret⟩ := rfl
    have hnotr2 : node ∉ s2.ret := by
      rw [hret2]
      intro hmem
      rcases List.mem_append.mp hmem with hmem | hmem
      · exact hqnot2 node ((hqr2 node).mpr hmem) (List.mem_cons_self node s.seen)
      · exact hns (hinv.ret_seen node hmem)
    refine ⟨q2 ++ [node], node :: r2, ?_, ?_, ?_, ?_, ?_, ?_⟩
    · rw [hdfs]
      show s2.seen = (q2 ++ [node]) ++ s.seen
      rw [hseen2, List.append_assoc, List.singleton_append]
    · rw [hdfs]
      show node :: s2.ret = (node :: r2) ++ s.ret
      rw [hret2, List.cons_append]
    · exact List.mem_append_right q2 (List.mem_singleton.mpr rfl)
    · intro x
      constructor
      · intro hx
        rcases List.mem_append.mp hx with hx | hx
        · exact List.mem_cons_of_mem node ((hqr2 x).mp hx)
        · rw [List.mem_singleton.mp hx]
          exact List.mem_cons_self node r2
      · intro hx
        rcases List.mem_cons.mp hx with rfl | hx
        · exact List.mem_append_right q2 (List.mem_singleton.mpr rfl)
        · exact List.mem_append_left [node] ((hqr2 x).mpr hx)
    · intro x hx
      rcases List.mem_append.mp hx with hx | hx
      · intro hmem
        exact hqnot2 x hx (List.mem_cons_of_mem node hmem)
      · rw [List.mem_singleton.mp hx]
        exact hns
    · rw [hdfs]
      refine ⟨hinv2.seen_nodup, List.nodup_cons.mpr ⟨hnotr2, hinv2.ret_nodup⟩, ?_, ?_, ?_⟩
      · intro x hx
        rcases List.mem_cons.mp hx with rfl | hx
        · rw [hseen2]
          exact List.mem_append_right q2 (List.mem_cons_self x s.seen)
        · exact hinv2.ret_seen x hx
      · exact hinv2.seen_nodes
      · intro u v huv hu
        rcases List.mem_cons.mp hu with rfl | hu
        · have hv : v ∈ s2.ret :=
            hchild v ((mem_childrenOf g u v).mpr huv)
          exact List.Sublist.cons₂ u (List.singleton_sublist.mpr hv)
        · exact List.Sublist.cons node (hinv2.edge_sublist u v huv hu)

/-- Specification of the top-level loop of `create_plan` (line 371): when
no node is gray, every processed node ends up finished, and the invariant
and gray-freeness are preserved. -/
theorem loop_spec (g : List (Node × Node)) (hg : Acyclic g) (N : Nat)
    (hN : (nodesOf g).length ≤ N) :
    ∀ (ns : List Node) (s : DfsSt), DfsInv g s → (∀ x ∈ s.seen, x ∈ s.ret) →
      (∀ x ∈ ns, x ∈ nodesOf g) →
      DfsInv g (ns.foldl (fun acc node => if node ∈ acc.seen then acc else dfs g N node acc) s) ∧
      (∀ x ∈ (ns.foldl (fun acc node => if node ∈ acc.seen then acc else dfs g N node acc) s).seen,
        x ∈ (ns.foldl (fun acc node => if node ∈ acc.seen then acc else dfs g N node acc) s).ret) ∧
      (∀ x ∈ ns,
        x ∈ (ns.foldl (fun acc node => if node ∈ acc.seen then acc else dfs g N node acc) s).ret) ∧
      (∀ x ∈ s.ret,
        x ∈ (ns.foldl (fun acc node => if node ∈ acc.seen then acc else dfs g N node acc) s).ret) := by
  intro ns
  induction ns with
  | nil =>
    intro s hinv hge _
    exact ⟨hinv, hge, by simp, fun x hx => hx⟩
  | cons nd ns' ihn =>
    intro s hinv hge hns
    have hndn : nd ∈ nodesOf g := hns nd (List.mem_cons_self nd ns')
    simp only [List.foldl_cons]
    by_cases hnd : nd ∈ s.seen
    · rw [if_pos hnd]
      obtain ⟨h1, h2, h3, h4⟩ :=
        ihn s hinv hge (fun x hx => hns x (List.mem_cons_of_mem nd hx))
      refine ⟨h1, h2, ?_, h4⟩
      intro x hx
      rcases List.mem_cons.mp hx with rfl | hx
      · exact h4 x (hge x hnd)
      · exact h3 x hx
    · rw [if_neg hnd]
      have hgray : GrayTo g s nd := by
        intro x hx hxr
        exact absurd (hge x hx) hxr
      have hfuel : (nodesOf g).length ≤ N + s.seen.length := Nat.le_add_right_of_le hN
      obtain ⟨q, r, hseen, hret, hndq, hqr, hqnot, hinv2⟩ :=
        dfs_spec g hg N nd s hinv hnd hndn hgray hfuel
      have hge2 : ∀ x ∈ (dfs g N nd s).seen, x ∈ (dfs g N nd s).ret := by
        intro x hx
        rw [hseen] at hx
        rw [hret]
        rcases List.mem_append.mp hx with hx | hx
        · exact List.mem_append_left s.ret ((hqr x).mp hx)
        · exact List.mem_append_right r (hge x hx)
      obtain ⟨h1, h2, h3, h4⟩ :=
        ihn (dfs g N nd s) hinv2 hge2 (fun x hx => hns x (List.mem_cons_of_mem nd hx))
      refine ⟨h1, h2, ?_, ?_⟩
      · intro x hx
        rcases List.mem_cons.mp hx with rfl | hx
        · refine h4 x ?_
          rw [hret]
          exact List.mem_append_left s.ret ((hqr x).mp hndq)
        · exact h3 x hx
      · intro x hx
        refine h4 x ?_
        rw [hret]
        exact List.mem_append_right r hx

/-- Full behaviour of `create_plan` on an acyclic input: the output is
duplicate-free, contains exactly the nodes incident to at least one edge,
and lists every edge's source strictly before its target. -/
theorem create_plan_correct (conns : List (Node × Node)) (hac : Acyclic conns) :
    (create_plan conns).Nodup ∧
    (∀ x, x ∈ create_plan conns ↔ ∃ e ∈ conns, e.1 = x ∨ e.2 = x) ∧
    (∀ u v, (u, v) ∈ conns → [u, v].Sublist (create_plan conns)) := by
  have hg : Acyclic (dedupFirst conns) := acyclic_dedupFirst conns hac
  have hinv0 : DfsInv (dedupFirst conns) ⟨[], []⟩ := by
    refine ⟨List.nodup_nil, List.nodup_nil, ?_, ?_, ?_⟩ <;> simp
  obtain ⟨h1, h2, h3, _⟩ :=
    loop_spec (dedupFirst conns) hg (nodesOf (dedupFirst conns)).length (le_refl _)
      (nodesOf (dedupFirst conns)) ⟨[], []⟩ hinv0 (by simp) (fun x hx => hx)
  have hplan : create_plan conns =
      ((nodesOf (dedupFirst conns)).foldl
        (fun acc node =>
          if node ∈ acc.seen then acc
          else dfs (dedupFirst conns) (nodesOf (dedupFirst conns)).length node acc)
        ⟨[], []⟩).ret := rfl
  refine ⟨?_, ?_, ?_⟩
  · rw [hplan]
    exact h1.ret_nodup
  · intro x
    rw [hplan]
    constructor
    · intro hx
      have hxn := h1.seen_nodes x (h1.ret_seen x hx)
      obtain ⟨e, he, hor⟩ := (mem_nodesOf _ x).mp hxn
      exact ⟨e, (mem_dedupFirst conns e).mp he, hor⟩
    · rintro ⟨e, he, hor⟩
      refine h3 x ((mem_nodesOf _ x).mpr ⟨e, (mem_dedupFirst conns e).mpr he, hor⟩)
  · intro u v huv
    rw [hplan]
    have huv' : EdgeRel (dedupFirst conns) u v := (edgeRel_dedupFirst conns u v).mpr huv
    refine h1.edge_sublist u v huv' ?_
    exact h3 u (fst_mem_nodesOf _ u v huv')

/-! ### The spec's tie-break rule (for comparison with `create_plan`) -/

/-- Modelled from the spec (4.2): a node is ready when it has no
unresolved predecessor among the remaining nodes. -/
def specReady (g : List (Node × Node)) (remaining : List Node) (u : Node) : Bool :=
  g.all (fun e => !(e.2 == u) || !(remaining.contains e.1))

/-- Modelled from the spec (4.2 tie-break rule): Kahn-style scheduling that
always emits the first ready node in declaration order.  This is the
schedule the spec's tie-break sentence describes; it is compared against
`create_plan`, which is the authoritative source embedding. -/
def specKahnAux (g : List (Node × Node)) : Nat → List Node → List Node
  | 0, _ => []
  | n + 1, remaining =>
    match remaining.find? (specReady g remaining) with
    | none => []
    | some u => u :: specKahnAux g n (remaining.erase u)

/-- Modelled from the spec (4.2 tie-break rule): schedule the declared
node list `decl` (in declaration order) against edge list `g`. -/
def specTieBreakSchedule (decl : List Node) (g : List (Node × Node)) : List Node :=
  specKahnAux g decl.length decl

example : specTieBreakSchedule ["a", "b", "c", "d"] [("a", "b"), ("c", "d")]
    = ["a", "b", "c", "d"] := by decide

/-! ## Data model (lab_server.py lines 34-59, 179-186; lib_operator.py) -/

/-- `Operator` (lib_operator.py lines 15-44).  `task_input`/`task_output`
are `none` when Python leaves the attribute unset. -/
structure Operator where
  id : String
  type : String
  task_input : Option (List String)
  task_output : Option (List String)
  storage_address : String
deriving Repr, DecidableEq

/-- One entry of the manipulate document: `name` plus the `input`/`output`
port-id lists (a missing or empty list is the empty list, which Python's
truthiness test treats the same way). -/
structure Manipulate where
  name : String
  input : List String
  output : List String
deriving Repr, DecidableEq

/-- `Operator.__init__` (lib_operator.py lines 24-44): indexes the first
manipulate entry whose `name` equals the operator's type; `[0]` on an
empty filter result raises `IndexError`.  `task_input`/`task_output` are
only assigned when the entry's list is non-empty (`if manipulate.get('input'):`). -/
def Operator.init (id type : String) (manipulate_list : List Manipulate)
    (storage_address : String) : Except String Operator :=
  match manipulate_list.filter (fun m => m.name == type) with
  | [] => Except.error "IndexError: list index out of range"
  | m :: _ =>
    Except.ok
      { id := id, type := type,
        task_input := if m.input.isEmpty then none else some m.input,
        task_output := if m.output.isEmpty then none else some m.output,
        storage_address := storage_address ++ "operators/" ++ id ++ "/" }

/-- `Operation` (lab_server.py lines 47-79). -/
structure Operation where
  db_id : Nat
  process_db_id : Nat
  process_name : String
  name : String
  started_at : Option String
  finished_at : Option String
  status : String
  storage_address : String
  run_storage_address : String
  is_transport : Bool
  is_data : Bool
deriving Repr, DecidableEq

/-- `Process` (lab_server.py lines 179-192). -/
structure Process where
  db_id : Nat
  run_id : Nat
  type : String
  id_in_protocol : String
  storage_address : String
  run_storage_address : String
deriving Repr, DecidableEq

/-- One entry of `protocol_dict["operations"]` (lines 42-44). -/
structure ProtocolOperation where
  id : String
  type : String
deriving Repr, DecidableEq

/-- A connection, after the dict conversion at lines 256-262. -/
structure Conn where
  input_source : String
  input_content : String
  output_source : String
  output_content : String
  is_data : Bool
deriving Repr, DecidableEq

/-- The parsed protocol document. -/
structure Protocol where
  operations : List ProtocolOperation
  connections : List Conn
deriving Repr, DecidableEq

/-- Observable calls to the external collaborators. -/
inductive Ev where
  | patchOp (eid : Nat) (attr : String) (val : String)
  | patchRun (eid : Nat) (attr : String) (val : String)
  | sleepEv (dur : Nat)
  | saveEv (path : String) (content : String) (ok : Bool)
  | postEdge (run_id fromId toId status : Nat)
deriving Repr, DecidableEq

/-- The environment: responses of the log server, outcomes of the storage
backend, the random machine choice and the random durations.  A
`...Raises` field set to `true` means the corresponding `requests` call
raises a network exception. -/
structure SimEnv where
  pick : List Operator → Option Operator
  runPostStatus : Nat
  runPostId : Option Nat
  procPostStatus : String → Nat
  procPostId : String → Option Nat
  opPostStatus : String → Nat
  opPostId : String → Option Nat
  edgePostStatus : Nat → Nat → Nat
  patchOpRaises : Nat → String → String → Bool
  patchRunRaises : Nat → String → String → Bool
  saveOk : String → Bool
  dur : Nat → Nat

/-! ## Graph builder (lab_server.py lines 230-343) -/

/-- `Process.post` (lines 194-228): register the process with the log
server; a non-200 status or a response without `id` raises; on success
the durable id and the storage address are set.  (The follow-up patch of
`storage_address` has its response ignored by the code.) -/
def Process.post (env : SimEnv) (p : Process) : Except String Process :=
  if env.procPostStatus p.id_in_protocol = 200 then
    match env.procPostId p.id_in_protocol with
    | none => Except.error "Unexpected response format. Expected id field"
    | some i =>
      Except.ok { p with
        db_id := i,
        storage_address := p.run_storage_address ++ "processes/" ++ toString i ++ "/" }
  else Except.error "Failed to create process"

/-- `Operation.post` (lines 81-118), keyed by the operation's name. -/
def Operation.post (env : SimEnv) (op : Operation) : Except String Operation :=
  if env.opPostStatus op.name = 200 then
    match env.opPostId op.name with
    | none => Except.error "Unexpected response format. Expected id field"
    | some i =>
      Except.ok { op with
        db_id := i,
        storage_address := op.run_storage_address ++ "operations/" ++ toString i ++ "/" }
  else Except.error "Failed to create operation"

/-- The passthrough Operation the sentinel input/output processes get
(lines 231-241). -/
def mkSentinelOperation (p : Process) : Operation :=
  { db_id := 0, process_db_id := p.db_id, process_name := p.id_in_protocol,
    name := p.id_in_protocol, started_at := none, finished_at := none,
    status := "not started", storage_address := "",
    run_storage_address := p.run_storage_address, is_transport := false, is_data := false }

/-- The step Operation for a declared process with assigned machine `m`
(lines 242-252); its name is the machine's id. -/
def mkStepOperation (p : Process) (m : Operator) : Operation :=
  { db_id := 0, process_db_id := p.db_id, process_name := p.id_in_protocol,
    name := m.id, started_at := none, finished_at := none,
    status := "not started", storage_address := "",
    run_storage_address := p.run_storage_address, is_transport := false, is_data := false }

/-- `Process.operation_mapping` (lines 230-252): sentinels (recognised by
`id_in_protocol`) get the passthrough operation; otherwise
`random.choice` — modelled by `pick` — over the machines whose type equals
the process type; `random.choice([])` raises `IndexError` (the failure the
spec names `NoMatchingOperator`). -/
def Process.operation_mapping (pick : List Operator → Option Operator)
    (machines : List Operator) (p : Process) : Except String Operation :=
  if p.id_in_protocol = "input" ∨ p.id_in_protocol = "output" then
    Except.ok (mkSentinelOperation p)
  else
    match pick (machines.filter (fun m => m.type == p.type)) with
    | none => Except.error "IndexError: no matching operator"
    | some m => Except.ok (mkStepOperation p m)

/-- The synthesized transport operation's name (line 270). -/
def transportName (c : Conn) : String :=
  c.input_source ++ "_" ++ c.input_content ++ "_" ++ c.output_source ++ "_" ++ c.output_content

/-- The transport Operation synthesized for a connection (lines 267-275),
owned by the source process. -/
def mkTransportOperation (c : Conn) (sp : Process) (run_storage_address : String) : Operation :=
  { db_id := 0, process_db_id := sp.db_id, process_name := sp.id_in_protocol,
    name := transportName c, started_at := none, finished_at := none,
    status := "not started", storage_address := "",
    run_storage_address := run_storage_address, is_transport := true, is_data := c.is_data }

/-- `connection_to_operation` (lines 255-285): per connection, look up the
source process and the two endpoint step operations (`[0]` on an empty
lookup raises `IndexError`); a data connection contributes one direct
edge; a non-data connection contributes the transport operation and the
two edges through it. -/
def connection_to_operation (connection_list : List Conn) (process_list : List Process)
    (operation_list : List Operation) (run_storage_address : String) :
    Except String (List Operation × List (Node × Node)) :=
  match connection_list with
  | [] => Except.ok ([], [])
  | c :: rest =>
    match process_list.find? (fun p => p.id_in_protocol == c.input_source) with
    | none => Except.error "IndexError: unknown input_source process"
    | some sp =>
      let transport := mkTransportOperation c sp run_storage_address
      match operation_list.find? (fun o => o.process_name == c.input_source) with
      | none => Except.error "IndexError: no operation for input_source"
      | some ofrom =>
        match operation_list.find? (fun o => o.process_name == c.output_source) with
        | none => Except.error "IndexError: no operation for output_source"
        | some oto =>
          match connection_to_operation rest process_list operation_list run_storage_address with
          | Except.error e => Except.error e
          | Except.ok (tops, edges) =>
            if c.is_data then Except.ok (tops, (ofrom.name, oto.name) :: edges)
            else Except.ok (transport :: tops,
              (ofrom.name, transport.name) :: (transport.name, oto.name) :: edges)

/-- Effectful map over `Except`, first error wins: models a Python list
comprehension of calls that may raise. -/
def exMapM {α β : Type} (f : α → Except String β) : List α → Except String (List β)
  | [] => Except.ok []
  | a :: l =>
    match f a with
    | Except.error e => Except.error e
    | Except.ok b =>
      match exMapM f l with
      | Except.error e => Except.error e
      | Except.ok bs => Except.ok (b :: bs)

/-- The declared processes plus the two sentinels (lines 292-317). -/
def buildProcessList (run_id : Nat) (protocol : Protocol) (run_storage_address : String) :
    List Process :=
  protocol.operations.map (fun pr =>
    { db_id := 0,
      run_id := run_id,
      type := pr.type,
      id_in_protocol := pr.id,
      storage_address := "",
      run_storage_address := run_storage_address }) ++
  [{ db_id := 0,
     run_id := run_id,
     type := "input",
     id_in_protocol := "input",
     storage_address := "",
     run_storage_address := run_storage_address },
   { db_id := 0,
     run_id := run_id,
     type := "output",
     id_in_protocol := "output",
     storage_address := "",
     run_storage_address := run_storage_address }]

/-- `create_process_and_operation_and_edge` up to the edge posts (lines
288-333): register the processes, map them to operations, synthesize
transport operations and name-level edges, register all operations and
resolve the edge endpoints to durable ids. -/
def buildPosted (env : SimEnv) (run_id : Nat) (protocol : Protocol)
    (machines : List Operator) (run_storage_address : String) :
    Except String (List Operation × List (Node × Node) × List (Nat × Nat)) :=
  match exMapM (Process.post env) (buildProcessList run_id protocol run_storage_address) with
  | Except.error e => Except.error e
  | Except.ok process_list =>
    match exMapM (Process.operation_mapping env.pick machines) process_list with
    | Except.error e => Except.error e
    | Except.ok operation_list =>
      match connection_to_operation protocol.connections process_list operation_list
          run_storage_address with
      | Except.error e => Except.error e
      | Except.ok (tops, edge_list) =>
        match exMapM (Operation.post env) (operation_list ++ tops) with
        | Except.error e => Except.error e
        | Except.ok posted_ops =>
          match exMapM (fun ed =>
              match posted_ops.find? (fun o => o.name == ed.1),
                    posted_ops.find? (fun o => o.name == ed.2) with
              | some a, some b => Except.ok (a.db_id, b.db_id)
              | _, _ => Except.error "IndexError: edge endpoint not found")
            edge_list with
          | Except.error e => Except.error e
          | Except.ok edge_ids => Except.ok (posted_ops, edge_list, edge_ids)

/-- `create_process_and_operation_and_edge` (lines 288-343): `buildPosted`
followed by one `requests.post` per edge (lines 334-342) whose responses
the code never reads; those posts are returned as trace events carrying
whatever status the environment answered. -/
def create_process_and_operation_and_edge (env : SimEnv) (run_id : Nat)
    (protocol : Protocol) (machines : List Operator) (run_storage_address : String) :
    Except String (List Operation × List (Node × Node)) × List Ev :=
  match buildPosted env run_id protocol machines run_storage_address with
  | Except.error e => (Except.error e, [])
  | Except.ok (posted_ops, edge_list, edge_ids) =>
    (Except.ok (posted_ops, edge_list),
      edge_ids.map (fun ed => Ev.postEdge run_id ed.1 ed.2 (env.edgePostStatus ed.1 ed.2)))

/-! ## Execution driver (lab_server.py lines 120-176, 513-521) -/

/-- Result of running one operation: the trace of collaborator calls, the
advanced clock, the operation's final in-memory state, and whether a call
raised. -/
structure RunStep where
  trace : List Ev
  time : Nat
  op : Operation
  raised : Bool
deriving Repr

/-- `Operation.run` (lines 120-176).  Faithful call order: patch
`started_at`, patch `status`=running, sleep a random duration, set the
in-memory state to completed, `storage.save` the log line (the boolean
result is ignored by the code, line 151), patch `log`, patch
`finished_at`, patch `status`=completed.  A raising patch aborts the rest
(the in-memory field assignments made before it persist). -/
def Operation.run (env : SimEnv) (t : Nat) (op0 : Operation) : RunStep :=
  let started := toString t
  let op1 : Operation := { op0 with started_at := some started, status := "running" }
  let e1 := Ev.patchOp op0.db_id "started_at" started
  if env.patchOpRaises op0.db_id "started_at" started then ⟨[e1], t + 1, op1, true⟩
  else
    let e2 := Ev.patchOp op0.db_id "status" "running"
    if env.patchOpRaises op0.db_id "status" "running" then ⟨[e1, e2], t + 1, op1, true⟩
    else
      let d := env.dur (t + 1)
      let e3 := Ev.sleepEv d
      let finished := toString (t + 1 + d)
      let op2 : Operation := { op1 with finished_at := some finished, status := "completed" }
      let logc := "Operation " ++ op0.name ++ " completed at " ++ finished
      let lpath := op0.storage_address ++ "log.txt"
      let e4 := Ev.saveEv lpath logc (env.saveOk lpath)
      let e5 := Ev.patchOp op0.db_id "log" logc
      if env.patchOpRaises op0.db_id "log" logc then
        ⟨[e1, e2, e3, e4, e5], t + 2 + d, op2, true⟩
      else
        let e6 := Ev.patchOp op0.db_id "finished_at" finished
        if env.patchOpRaises op0.db_id "finished_at" finished then
          ⟨[e1, e2, e3, e4, e5, e6], t + 2 + d, op2, true⟩
        else
          let e7 := Ev.patchOp op0.db_id "status" "completed"
          if env.patchOpRaises op0.db_id "status" "completed" then
            ⟨[e1, e2, e3, e4, e5, e6, e7], t + 2 + d, op2, true⟩
          else ⟨[e1, e2, e3, e4, e5, e6, e7], t + 2 + d, op2, false⟩

/-- Result of the driver: overall trace, clock, final operation list and
whether an exception escaped. -/
structure ExecResult where
  trace : List Ev
  time : Nat
  ops : List Operation
  raised : Bool
deriving Repr

/-- Replace the first operation named `n` (the object the Python loop
mutates in place). -/
def updateFirst (ops : List Operation) (n : String) (newOp : Operation) : List Operation :=
  match ops with
  | [] => []
  | o :: rest => if o.name == n then newOp :: rest else o :: updateFirst rest n newOp

/-- The execution loop of `run_experiment` (lines 516-518): for each
scheduled name, look up the first operation with that name (`[... ][0]`
raises `IndexError` on an empty lookup) and run it; a raise aborts the
remaining schedule. -/
def execPlan (env : SimEnv) (ops : List Operation) (t : Nat) : List String → ExecResult
  | [] => ⟨[], t, ops, false⟩
  | name :: rest =>
    match ops.find? (fun o => o.name == name) with
    | none => ⟨[], t, ops, true⟩
    | some op =>
      let st := Operation.run env t op
      let ops' := updateFirst ops name st.op
      if st.raised then ⟨st.trace, st.time, ops', true⟩
      else
        let r := execPlan env ops' st.time rest
        ⟨st.trace ++ r.trace, r.time, r.ops, r.raised⟩

/-- The run-level bracket of `run_experiment` (lines 513-521): report the
run `started_at` and `status`=running, execute the schedule, then report
`finished_at` and `status`=completed.  The code contains no handler, so a
raise anywhere simply aborts everything after it. -/
def runDriver (env : SimEnv) (run_id : Nat) (ops : List Operation) (plan : List String)
    (t : Nat) : ExecResult :=
  let ts := toString t
  let e1 := Ev.patchRun run_id "started_at" ts
  if env.patchRunRaises run_id "started_at" ts then ⟨[e1], t + 1, ops, true⟩
  else
    let e2 := Ev.patchRun run_id "status" "running"
    if env.patchRunRaises run_id "status" "running" then ⟨[e1, e2], t + 1, ops, true⟩
    else
      let r := execPlan env ops (t + 1) plan
      if r.raised then ⟨[e1, e2] ++ r.trace, r.time, r.ops, true⟩
      else
        let tf := toString r.time
        let e3 := Ev.patchRun run_id "finished_at" tf
        if env.patchRunRaises run_id "finished_at" tf then
          ⟨[e1, e2] ++ r.trace ++ [e3], r.time + 1, r.ops, true⟩
        else
          let e4 := Ev.patchRun run_id "status" "completed"
          if env.patchRunRaises run_id "status" "completed" then
            ⟨[e1, e2] ++ r.trace ++ [e3, e4], r.time + 1, r.ops, true⟩
          else ⟨[e1, e2] ++ r.trace ++ [e3, e4], r.time + 1, r.ops, false⟩

/-- The run-creation step of `run_experiment` (lines 447-472): a non-200
response or a response without `id` raises an `HTTPException`; otherwise
the durable run id is returned. -/
def createRun (env : SimEnv) : Except String Nat :=
  if env.runPostStatus = 200 then
    match env.runPostId with
    | none => Except.error "Unexpected response format from log server"
    | some i => Except.ok i
  else Except.error "Failed to create run"

/-! ## Machine construction in `run_experiment` (lines 499-511) -/

/-- Modelled from the spec: the classes `HumanPlateServer`,
`TecanFluent480`, `OpentronsOT2`, `TecanInfinite200Pro` and
`HumanStoreLabware` come from the `machines` module of this repository,
which is not under `src/`; per spec sections 4.4 and 6 each is a
capability provider constructed through `Operator.__init__` with its
fixed id (visible at lab_server.py lines 499-505) and its fixed
capability type, which we abstract as the parameters `t1` … `t5`. -/
def machinePairs (t1 t2 t3 t4 t5 : String) : List (String × String) :=
  [("human_plate_server", t1), ("tecan_fluent_480", t2), ("opentrons_ot2", t3),
   ("tecan_infinite_200_pro", t4), ("human_store_labware", t5)]

/-- Machine construction (lines 499-505): the five operators are
initialised in order, each through `Operator.init`; the first
`IndexError` aborts `run_experiment`. -/
def initMachines (pairs : List (String × String)) (manipulates : List Manipulate)
    (run_storage_address : String) : Except String (List Operator) :=
  exMapM (fun p => Operator.init p.1 p.2 manipulates run_storage_address) pairs

/-- Lines 499-511 of `run_experiment`: the machines are initialised
before `create_process_and_operation_and_edge` runs. -/
def machinesThenBuild (env : SimEnv) (pairs : List (String × String))
    (manipulates : List Manipulate) (run_id : Nat) (protocol : Protocol)
    (run_storage_address : String) :
    Except String (List Operation × List (Node × Node)) × List Ev :=
  match initMachines pairs manipulates run_storage_address with
  | Except.error e => (Except.error e, [])
  | Except.ok machines =>
    create_process_and_operation_and_edge env run_id protocol machines run_storage_address

/-! ## Storage writer (storage_writer.py) -/

/-- The storage backends; each call either succeeds or raises (any
backend exception is an error value). -/
structure StorageBackend where
  putObject : String → String → Except String Unit
  writeLocal : String → String → Except String Unit

/-- `StorageWriter` (storage_writer.py lines 27-49): its configuration is
the mode resolved from `STORAGE_MODE`. -/
structure StorageWriter where
  mode : String

/-- `_save_s3` (lines 96-109): `try` the upload, `return True`; any
exception yields `return False`. -/
def StorageWriter.saveS3 (b : StorageBackend) (path content : String) : Bool :=
  match b.putObject path content with
  | Except.ok _ => true
  | Except.error _ => false

/-- `_save_local` (lines 111-122): the mkdir/open/write block under the
same `try`/`except` shape. -/
def StorageWriter.saveLocal (b : StorageBackend) (path content : String) : Bool :=
  match b.writeLocal path content with
  | Except.ok _ => true
  | Except.error _ => false

/-- `save` (lines 79-94): dispatch on the mode. -/
def StorageWriter.save (w : StorageWriter) (b : StorageBackend) (path content : String) :
    Bool :=
  if w.mode == "s3" then StorageWriter.saveS3 b path content
  else StorageWriter.saveLocal b path content

/-- `save_text` (lines 124-136): encode and delegate (byte strings are
modelled as `String`, so the utf-8 encoding is the identity embedding). -/
def StorageWriter.save_text (w : StorageWriter) (b : StorageBackend) (path text : String) :
    Bool :=
  StorageWriter.save w b path text

/-- `json.dumps` of a flat string dictionary, as `save_json` uses it. -/
def jsonDumps (kvs : List (String × String)) : String :=
  "\x7b" ++ String.intercalate ", "
    (kvs.map (fun kv => "\"" ++ kv.1 ++ "\": \"" ++ kv.2 ++ "\"")) ++ "\x7d"

/-- `save_json` (lines 138-151): dump to JSON text and delegate to `save`. -/
def StorageWriter.save_json (w : StorageWriter) (b : StorageBackend) (path : String)
    (data : List (String × String)) : Bool :=
  StorageWriter.save w b path (jsonDumps data)

/-! ## Concrete instances used by witnesses and counterexamples -/

/-- An all-success environment used to instantiate theorems at concrete
inputs; durable ids are derived from name lengths so that they vary. -/
def env0 : SimEnv :=
  { pick := fun l => l.head?,
    runPostStatus := 200,
    runPostId := some 1,
    procPostStatus := fun _ => 200,
    procPostId := fun n => some (n.length + 100),
    opPostStatus := fun _ => 200,
    opPostId := fun n => some n.length,
    edgePostStatus := fun _ _ => 200,
    patchOpRaises := fun _ _ _ => false,
    patchRunRaises := fun _ _ _ => false,
    saveOk := fun _ => true,
    dur := fun _ => 1 }

/-! ## Claim theorems -/

/-- C2: the spec requires `schedule` to detect cycles with three-state
marking and fail with `CycleDetected`; `create_plan` (line 361) uses a
single boolean `seen` flag and contains no cycle check at all, so on the
2-cycle a→b, b→a it raises nothing and silently returns the order
["a", "b"], which violates the edge (b, a).  This evaluates the code at
the failing input. -/
theorem create_plan_cycle_code_bug :
    create_plan [("a", "b"), ("b", "a")] = ["a", "b"] ∧
    ¬ [("b" : Node), "a"].Sublist (create_plan [("a", "b"), ("b", "a")]) := by
  constructor
  · decide
  · decide

/-- C8: counterexample to the declaration-order tie-break.  On the edge
set [(a,b), (c,d)] with declaration order a, b, c, d both a and c are
initially available; the spec's tie-break (modelled by
`specTieBreakSchedule`) emits a first, but `create_plan` emits c first:
the DFS postorder reversal puts the later-visited component ahead. -/
theorem schedule_tie_break_counterexample :
    create_plan [("a", "b"), ("c", "d")] = ["c", "d", "a", "b"] ∧
    specTieBreakSchedule ["a", "b", "c", "d"] [("a", "b"), ("c", "d")]
      = ["a", "b", "c", "d"] ∧
    create_plan [("a", "b"), ("c", "d")] ≠
      specTieBreakSchedule ["a", "b", "c", "d"] [("a", "b"), ("c", "d")] := by
  refine ⟨by decide, by decide, by decide⟩

/-- C8 (amended): `schedule` is deterministic — rerunning it on the same
edge list yields identical output — but the order among simultaneously
available nodes is the code's reverse-postorder DFS order over the edge
list, not declaration order: on [(a,b), (c,d)] it emits c, d, a, b. -/
theorem schedule_deterministic_amended :
    (∀ connections : List (Node × Node),
      create_plan connections = create_plan connections) ∧
    create_plan [("a", "b"), ("c", "d")] = ["c", "d", "a", "b"] :=
  ⟨fun _ => rfl, by decide⟩

/-- C9: `save` is total: it dispatches on the mode, returns `true` exactly
when the selected backend call succeeds and `false` whenever the backend
raises (the `except` blocks at storage_writer.py lines 107-109 and
120-122 catch every exception), and the `save_text` / `save_json`
wrappers delegate to `save` on the encoded content. -/
theorem storage_save_total :
    (∀ (w : StorageWriter) (b : StorageBackend) (path content : String),
      ((w.mode == "s3") = true →
        (StorageWriter.save w b path content = true ↔
          b.putObject path content = Except.ok ()) ∧
        (∀ e, b.putObject path content = Except.error e →
          StorageWriter.save w b path content = false)) ∧
      ((w.mode == "s3") = false →
        (StorageWriter.save w b path content = true ↔
          b.writeLocal path content = Except.ok ()) ∧
        (∀ e, b.writeLocal path content = Except.error e →
          StorageWriter.save w b path content = false))) ∧
    (∀ (w : StorageWriter) (b : StorageBackend) (path text : String),
      StorageWriter.save_text w b path text = StorageWriter.save w b path text) ∧
    (∀ (w : StorageWriter) (b : StorageBackend) (path : String)
      (data : List (String × String)),
      StorageWriter.save_json w b path data
        = StorageWriter.save w b path (jsonDumps data)) := by
  refine ⟨?_, fun w b path text => rfl, fun w b path data => rfl⟩
  intro w b path content
  constructor
  · intro hmode
    simp only [StorageWriter.save, hmode, if_pos]
    constructor
    · cases hpo : b.putObject path content with
      | ok u =>
        cases u
        simp [StorageWriter.saveS3, hpo]
      | error e =>
        simp [StorageWriter.saveS3, hpo]
    · intro e he
      simp [StorageWriter.saveS3, he]
  · intro hmode
    simp only [StorageWriter.save, hmode]
    constructor
    · cases hpo : b.writeLocal path content with
      | ok u =>
        cases u
        simp [StorageWriter.saveLocal, hpo]
      | error e =>
        simp [StorageWriter.saveLocal, hpo]
    · intro e he
      simp [StorageWriter.saveLocal, he]

/-- C9 witness: at a concrete s3-mode writer whose backend raises, `save`
returns `false` rather than propagating. -/
theorem storage_save_total_witness :
    ((StorageWriter.mk "s3").mode == "s3") = true ∧
    StorageWriter.save (StorageWriter.mk "s3")
      (StorageBackend.mk (fun _ _ => Except.error "SocketTimeout")
        (fun _ _ => Except.ok ())) "runs/1/log.txt" "hello" = false :=
  ⟨rfl,
    ((storage_save_total.1 (StorageWriter.mk "s3")
      (StorageBackend.mk (fun _ _ => Except.error "SocketTimeout")
        (fun _ _ => Except.ok ())) "runs/1/log.txt" "hello").1 rfl).2
      "SocketTimeout" rfl⟩

/-- What `random.choice` guarantees: nothing on the empty list (it
raises), some member of the list otherwise. -/
def ValidPick (pick : List Operator → Option Operator) : Prop :=
  pick [] = none ∧ ∀ l, l ≠ [] → ∃ x, pick l = some x ∧ x ∈ l

theorem validPick_head : ValidPick (fun l => l.head?) := by
  constructor
  · rfl
  · intro l hl
    match l with
    | [] => exact absurd rfl hl
    | x :: xs => exact ⟨x, rfl, List.mem_cons_self x xs⟩

/-- C6: for a non-sentinel process, any valid random choice assigns a
machine drawn from `machines` whose type equals the process type (the
operation is the step operation named after that machine); the mapping
fails exactly when no machine of that type exists; and with exactly one
candidate the result is deterministic.  Sentinel processes (recognised by
`id_in_protocol` being "input"/"output") get the passthrough operation of
the same name, independently of the machine pool and of the random
choice. -/
theorem operation_mapping_operator_choice :
    (∀ (pick : List Operator → Option Operator) (machines : List Operator) (p : Process),
      ValidPick pick → p.id_in_protocol ≠ "input" → p.id_in_protocol ≠ "output" →
      (∀ op, Process.operation_mapping pick machines p = Except.ok op →
        ∃ m ∈ machines, m.type = p.type ∧ op = mkStepOperation p m) ∧
      (machines.filter (fun m => m.type == p.type) = [] ↔
        Process.operation_mapping pick machines p
          = Except.error "IndexError: no matching operator") ∧
      (∀ m, machines.filter (fun m' => m'.type == p.type) = [m] →
        Process.operation_mapping pick machines p = Except.ok (mkStepOperation p m))) ∧
    (∀ (pick pick' : List Operator → Option Operator)
      (machines machines' : List Operator) (p : Process),
      (p.id_in_protocol = "input" ∨ p.id_in_protocol = "output") →
      Process.operation_mapping pick machines p = Except.ok (mkSentinelOperation p) ∧
      Process.operation_mapping pick machines p
        = Process.operation_mapping pick' machines' p) := by
  constructor
  · intro pick machines p hv hni hno
    have hsent : ¬ (p.id_in_protocol = "input" ∨ p.id_in_protocol = "output") := by
      rintro (h | h)
      · exact hni h
      · exact hno h
    refine ⟨?_, ?_, ?_⟩
    · intro op hop
      simp only [Process.operation_mapping, if_neg hsent] at hop
      cases hpick : pick (machines.filter (fun m => m.type == p.type)) with
      | none => rw [hpick] at hop; exact absurd hop (by simp)
      | some m =>
        rw [hpick] at hop
        have hne : machines.filter (fun m => m.type == p.type) ≠ [] := by
          intro hnil
          rw [hnil, hv.1] at hpick
          exact Option.noConfusion hpick
        obtain ⟨x, hx, hxm⟩ := hv.2 _ hne
        rw [hpick] at hx
        have hxe : x = m := (Option.some.inj hx).symm
        subst hxe
        have hmem := List.mem_filter.mp hxm
        refine ⟨x, hmem.1, by simpa using hmem.2, ?_⟩
        have := Except.ok.inj hop
        exact this.symm
    · constructor
      · intro hnil
        simp only [Process.operation_mapping, if_neg hsent, hnil, hv.1]
      · intro herr
        simp only [Process.operation_mapping, if_neg hsent] at herr
        cases hpick : pick (machines.filter (fun m => m.type == p.type)) with
        | none =>
          by_contra hne
          obtain ⟨x, hx, _⟩ := hv.2 _ hne
          rw [hpick] at hx
          exact Option.noConfusion hx
        | some m =>
          rw [hpick] at herr
          exact absurd herr (by simp)
    · intro m hone
      obtain ⟨x, hx, hxm⟩ := hv.2 (machines.filter (fun m' => m'.type == p.type))
        (by rw [hone]; exact List.cons_ne_nil m [])
      rw [hone] at hxm
      have hxe : x = m := List.mem_singleton.mp hxm
      subst hxe
      simp only [Process.operation_mapping, if_neg hsent, hx]
  · intro pick pick' machines machines' p hs
    constructor
    · simp only [Process.operation_mapping, if_pos hs]
    · simp only [Process.operation_mapping, if_pos hs]

/-- C6 witness: concrete non-sentinel process of type "liquid_handler"
with exactly one matching machine: the assignment is deterministic and
produces the step operation named after that machine; and the sentinel
case at a concrete input process. -/
theorem operation_mapping_operator_choice_witness :
    ValidPick (fun l => l.head?) ∧
    ("mix" : String) ≠ "input" ∧ ("mix" : String) ≠ "output" ∧
    Process.operation_mapping (fun l => l.head?)
      [Operator.mk "lh1" "liquid_handler" none none ""]
      (Process.mk 0 1 "liquid_handler" "mix" "" "runs/1/")
      = Except.ok (mkStepOperation (Process.mk 0 1 "liquid_handler" "mix" "" "runs/1/")
          (Operator.mk "lh1" "liquid_handler" none none "")) ∧
    Process.operation_mapping (fun l => l.head?) []
      (Process.mk 0 1 "input" "input" "" "runs/1/")
      = Except.ok (mkSentinelOperation (Process.mk 0 1 "input" "input" "" "runs/1/")) := by
  refine ⟨validPick_head, by decide, by decide, ?_, ?_⟩
  · exact (operation_mapping_operator_choice.1 (fun l => l.head?)
      [Operator.mk "lh1" "liquid_handler" none none ""]
      (Process.mk 0 1 "liquid_handler" "mix" "" "runs/1/")
      validPick_head (by decide) (by decide)).2.2
      (Operator.mk "lh1" "liquid_handler" none none "") (by decide)
  · exact (operation_mapping_operator_choice.2 (fun l => l.head?) (fun l => l.head?)
      [] [] (Process.mk 0 1 "input" "input" "" "runs/1/") (Or.inl rfl)).1

/-! ### Lemmas about `exMapM` -/

theorem exMapM_ok_length {α β : Type} (f : α → Except String β) :
    ∀ (l : List α) (l' : List β), exMapM f l = Except.ok l' → l'.length = l.length := by
  intro l
  induction l with
  | nil =>
    intro l' h
    simp only [exMapM] at h
    have h2 := Except.ok.inj h
    subst h2
    rfl
  | cons a t ih =>
    intro l' h
    simp only [exMapM] at h
    cases hfa : f a with
    | error e => rw [hfa] at h; exact absurd h (by simp)
    | ok b =>
      rw [hfa] at h
      cases hrest : exMapM f t with
      | error e => rw [hrest] at h; exact absurd h (by simp)
      | ok bs =>
        rw [hrest] at h
        have := Except.ok.inj h
        rw [← this, List.length_cons, List.length_cons, ih bs hrest]

theorem exMapM_mem_of {α β : Type} (f : α → Except String β) :
    ∀ (l : List α) (l' : List β), exMapM f l = Except.ok l' →
      ∀ b ∈ l', ∃ a ∈ l, f a = Except.ok b := by
  intro l
  induction l with
  | nil =>
    intro l' h b hb
    simp only [exMapM] at h
    rw [← Except.ok.inj h] at hb
    exact absurd hb (List.not_mem_nil b)
  | cons a t ih =>
    intro l' h b hb
    simp only [exMapM] at h
    cases hfa : f a with
    | error e => rw [hfa] at h; exact absurd h (by simp)
    | ok b0 =>
      rw [hfa] at h
      cases hrest : exMapM f t with
      | error e => rw [hrest] at h; exact absurd h (by simp)
      | ok bs =>
        rw [hrest] at h
        rw [← Except.ok.inj h] at hb
        rcases List.mem_cons.mp hb with rfl | hb
        · exact ⟨a, List.mem_cons_self a t, hfa⟩
        · obtain ⟨a', ha', hfa'⟩ := ih bs hrest b hb
          exact ⟨a', List.mem_cons_of_mem a ha', hfa'⟩

theorem exMapM_forall {α β : Type} (f : α → Except String β) :
    ∀ (l : List α) (l' : List β), exMapM f l = Except.ok l' →
      ∀ a ∈ l, ∃ b ∈ l', f a = Except.ok b := by
  intro l
  induction l with
  | nil =>
    intro l' _ a ha
    exact absurd ha (List.not_mem_nil a)
  | cons a0 t ih =>
    intro l' h a ha
    simp only [exMapM] at h
    cases hfa : f a0 with
    | error e => rw [hfa] at h; exact absurd h (by simp)
    | ok b0 =>
      rw [hfa] at h
      cases hrest : exMapM f t with
      | error e => rw [hrest] at h; exact absurd h (by simp)
      | ok bs =>
        rw [hrest] at h
        rw [← Except.ok.inj h]
        rcases List.mem_cons.mp ha with rfl | ha
        · exact ⟨b0, List.mem_cons_self b0 bs, hfa⟩
        · obtain ⟨b, hb, hfb⟩ := ih bs hrest a ha
          exact ⟨b, List.mem_cons_of_mem b0 hb, hfb⟩

theorem exMapM_ok_exists {α β : Type} (f : α → Except String β) :
    ∀ l : List α, (∃ l', exMapM f l = Except.ok l') ↔ ∀ a ∈ l, ∃ b, f a = Except.ok b := by
  intro l
  induction l with
  | nil =>
    constructor
    · intro _ a ha
      exact absurd ha (List.not_mem_nil a)
    · intro _
      exact ⟨[], rfl⟩
  | cons a t ih =>
    constructor
    · rintro ⟨l', h⟩ x hx
      simp only [exMapM] at h
      cases hfa : f a with
      | error e => rw [hfa] at h; exact absurd h (by simp)
      | ok b =>
        rw [hfa] at h
        cases hrest : exMapM f t with
        | error e => rw [hrest] at h; exact absurd h (by simp)
        | ok bs =>
          rcases List.mem_cons.mp hx with rfl | hx
          · exact ⟨b, hfa⟩
          · exact (ih.mp ⟨bs, hrest⟩) x hx
    · intro hall
      obtain ⟨b, hfa⟩ := hall a (List.mem_cons_self a t)
      obtain ⟨bs, hrest⟩ := ih.mpr (fun x hx => hall x (List.mem_cons_of_mem a hx))
      exact ⟨b :: bs, by simp [exMapM, hfa, hrest]⟩

/-- `Operator.init` succeeds exactly when some manipulate entry's name
equals the capability type. -/
theorem operator_init_ok (id type : String) (ms : List Manipulate) (rsa : String) :
    (∃ op, Operator.init id type ms rsa = Except.ok op) ↔ ∃ m ∈ ms, m.name = type := by
  unfold Operator.init
  cases hf : ms.filter (fun m => m.name == type) with
  | nil =>
    constructor
    · rintro ⟨op, hop⟩
      exact absurd hop (by simp)
    · rintro ⟨m, hm, hname⟩
      have : m ∈ ms.filter (fun m => m.name == type) :=
        List.mem_filter.mpr ⟨hm, by simpa using hname⟩
      rw [hf] at this
      exact absurd this (List.not_mem_nil m)
  | cons m rest =>
    constructor
    · intro _
      have : m ∈ ms.filter (fun m => m.name == type) := by
        rw [hf]; exact List.mem_cons_self m rest
      have hmem := List.mem_filter.mp this
      exact ⟨m, hmem.1, by simpa using hmem.2⟩
    · intro _
      exact ⟨_, rfl⟩

theorem initMachines_ok_iff (pairs : List (String × String)) (ms : List Manipulate)
    (rsa : String) :
    (∃ ops, initMachines pairs ms rsa = Except.ok ops) ↔
      ∀ p ∈ pairs, ∃ m ∈ ms, m.name = p.2 := by
  unfold initMachines
  rw [exMapM_ok_exists]
  constructor
  · intro h p hp
    exact (operator_init_ok p.1 p.2 ms rsa).mp (h p hp)
  · intro h p hp
    exact (operator_init_ok p.1 p.2 ms rsa).mpr (h p hp)

/-- C10: `run_experiment` has the undocumented precondition that the
manipulate document names every one of the five built-in operator types:
the five machine constructions (lines 499-505) each run
`Operator.__init__`, which indexes the first matching manipulate entry,
so construction succeeds exactly when every type is present, and any
missing type makes the whole call fail with the `IndexError` before
`create_process_and_operation_and_edge` is reached. -/
theorem machine_init_precondition :
    ∀ (t1 t2 t3 t4 t5 : String) (manips : List Manipulate) (rsa : String),
      ((∀ p ∈ machinePairs t1 t2 t3 t4 t5, ∃ m ∈ manips, m.name = p.2) ↔
        ∃ ms, initMachines (machinePairs t1 t2 t3 t4 t5) manips rsa = Except.ok ms) ∧
      (∀ e, initMachines (machinePairs t1 t2 t3 t4 t5) manips rsa = Except.error e →
        ∀ (env : SimEnv) (run_id : Nat) (protocol : Protocol),
          machinesThenBuild env (machinePairs t1 t2 t3 t4 t5) manips run_id protocol rsa
            = (Except.error e, [])) := by
  intro t1 t2 t3 t4 t5 manips rsa
  constructor
  · exact (initMachines_ok_iff (machinePairs t1 t2 t3 t4 t5) manips rsa).symm
  · intro e he env run_id protocol
    simp only [machinesThenBuild, he]

/-- C10 witness: with a manipulate document containing the single entry
"dispense" and all five types equal to "dispense", construction succeeds;
with an empty manipulate document it fails with the IndexError and the
graph builder is never reached. -/
theorem machine_init_precondition_witness :
    (∃ ms, initMachines (machinePairs "dispense" "dispense" "dispense" "dispense" "dispense")
      [Manipulate.mk "dispense" [] []] "runs/1/" = Except.ok ms) ∧
    machinesThenBuild env0 (machinePairs "a" "b" "c" "d" "e") [] 1
      (Protocol.mk [] []) "runs/1/"
      = (Except.error "IndexError: list index out of range", []) := by
  constructor
  · exact (machine_init_precondition "dispense" "dispense" "dispense" "dispense" "dispense"
      [Manipulate.mk "dispense" [] []] "runs/1/").1.mp (by decide)
  · exact (machine_init_precondition "a" "b" "c" "d" "e" [] "runs/1/").2
      "IndexError: list index out of range" (by rfl) env0 1 (Protocol.mk [] [])

/-! ### Lemmas about the graph builder -/

/-- `Operation.post` only sets `db_id` and `storage_address`. -/
theorem op_post_preserves (env : SimEnv) (op op' : Operation)
    (h : Operation.post env op = Except.ok op') :
    op'.name = op.name ∧ op'.process_name = op.process_name ∧
    op'.is_transport = op.is_transport ∧ op'.is_data = op.is_data := by
  unfold Operation.post at h
  by_cases hs : env.opPostStatus op.name = 200
  · rw [if_pos hs] at h
    cases hid : env.opPostId op.name with
    | none => rw [hid] at h; exact absurd h (by simp)
    | some i =>
      rw [hid] at h
      rw [← Except.ok.inj h]
      exact ⟨rfl, rfl, rfl, rfl⟩
  · rw [if_neg hs] at h
    exact absurd h (by simp)

/-- Every operation produced by `operation_mapping` is a step or sentinel
operation, never a transport. -/
theorem operation_mapping_not_transport (pick : List Operator → Option Operator)
    (machines : List Operator) (p : Process) (op : Operation)
    (h : Process.operation_mapping pick machines p = Except.ok op) :
    op.is_transport = false := by
  unfold Process.operation_mapping at h
  by_cases hs : (p.id_in_protocol = "input" ∨ p.id_in_protocol = "output")
  · rw [if_pos hs] at h
    rw [← Except.ok.inj h]
    rfl
  · rw [if_neg hs] at h
    cases hp : pick (machines.filter (fun m => m.type == p.type)) with
    | none => rw [hp] at h; exact absurd h (by simp)
    | some m =>
      rw [hp] at h
      rw [← Except.ok.inj h]
      rfl

/-- Full characterisation of `connection_to_operation` on success: one
transport operation per non-data connection (each built from the looked-up
source process), one edge per data connection and two per non-data
connection, with the looked-up endpoint operation names. -/
theorem connection_to_operation_spec :
    ∀ (conns : List Conn) (procs : List Process) (opsL : List Operation) (rsa : String)
      (res : List Operation × List (Node × Node)),
      connection_to_operation conns procs opsL rsa = Except.ok res →
      res.1.length = (conns.filter (fun c => !c.is_data)).length ∧
      res.2.length = (conns.filter (fun c => c.is_data)).length
        + 2 * (conns.filter (fun c => !c.is_data)).length ∧
      (∀ top ∈ res.1, ∃ c ∈ conns, c.is_data = false ∧ ∃ sp,
        procs.find? (fun p => p.id_in_protocol == c.input_source) = some sp ∧
        top = mkTransportOperation c sp rsa) ∧
      (∀ c ∈ conns, ∃ ofrom oto,
        opsL.find? (fun o => o.process_name == c.input_source) = some ofrom ∧
        opsL.find? (fun o => o.process_name == c.output_source) = some oto ∧
        (if c.is_data then (ofrom.name, oto.name) ∈ res.2
         else (ofrom.name, transportName c) ∈ res.2 ∧
           (transportName c, oto.name) ∈ res.2)) := by
  intro conns
  induction conns with
  | nil =>
    intro procs opsL rsa res h
    simp only [connection_to_operation] at h
    rw [← Except.ok.inj h]
    refine ⟨by simp, by simp, by simp, by simp⟩
  | cons c rest ih =>
    intro procs opsL rsa res h
    simp only [connection_to_operation] at h
    split at h
    · exact absurd h (by simp)
    · rename_i sp hsp
      split at h
      · exact absurd h (by simp)
      · rename_i ofrom hfrom
        split at h
        · exact absurd h (by simp)
        · rename_i oto hto
          split at h
          · exact absurd h (by simp)
          · rename_i tops' edges' hrec
            obtain ⟨h1, h2, h3, h4⟩ := ih procs opsL rsa (tops', edges') hrec
            by_cases hd : c.is_data = true
            · rw [if_pos (by simp [hd])] at h
              rw [← Except.ok.inj h]
              refine ⟨?_, ?_, ?_, ?_⟩
              · simp only [List.filter_cons, hd]
                simpa using h1
              · simp only [List.filter_cons, hd]
                simp only [Bool.not_true, List.length_cons] at h2 ⊢
                simp [h2]
                omega
              · intro top htop
                obtain ⟨c', hc', hcd, sp', hsp', htop'⟩ := h3 top htop
                exact ⟨c', List.mem_cons_of_mem c hc', hcd, sp', hsp', htop'⟩
              · intro c' hc'
                rcases List.mem_cons.mp hc' with rfl | hc'
                · exact ⟨ofrom, oto, hfrom, hto, by
                    rw [if_pos (by simp [hd])]
                    exact List.mem_cons_self _ _⟩
                · obtain ⟨of', ot', hf', ht', hmem⟩ := h4 c' hc'
                  refine ⟨of', ot', hf', ht', ?_⟩
                  by_cases hd' : c'.is_data = true
                  · rw [if_pos (by simp [hd'])] at hmem ⊢
                    exact List.mem_cons_of_mem _ hmem
                  · rw [if_neg (by simp [Bool.not_eq_true] at hd'; simp [hd'])] at hmem ⊢
                    exact ⟨List.mem_cons_of_mem _ hmem.1, List.mem_cons_of_mem _ hmem.2⟩
            · rw [Bool.not_eq_true] at hd
              rw [if_neg (by simp [hd])] at h
              rw [← Except.ok.inj h]
              refine ⟨?_, ?_, ?_, ?_⟩
              · simp only [List.filter_cons, hd]
                simpa using h1
              · simp only [List.filter_cons, hd]
                simp only [List.length_cons] at h2 ⊢
                simp [h2]
                omega
              · intro top htop
                rcases List.mem_cons.mp htop with rfl | htop
                · exact ⟨c, List.mem_cons_self c rest, hd, sp, hsp, rfl⟩
                · obtain ⟨c', hc', hcd, sp', hsp', htop'⟩ := h3 top htop
                  exact ⟨c', List.mem_cons_of_mem c hc', hcd, sp', hsp', htop'⟩
              · intro c' hc'
                rcases List.mem_cons.mp hc' with rfl | hc'
                · refine ⟨ofrom, oto, hfrom, hto, ?_⟩
                  rw [if_neg (by simp [hd])]
                  exact ⟨List.mem_cons_self _ _,
                    List.mem_cons_of_mem _ (List.mem_cons_self _ _)⟩
                · obtain ⟨of', ot', hf', ht', hmem⟩ := h4 c' hc'
                  refine ⟨of', ot', hf', ht', ?_⟩
                  by_cases hd' : c'.is_data = true
                  · rw [if_pos (by simp [hd'])] at hmem ⊢
                    exact List.mem_cons_of_mem _ (List.mem_cons_of_mem _ hmem)
                  · rw [if_neg (by simp [Bool.not_eq_true] at hd'; simp [hd'])] at hmem ⊢
                    exact ⟨List.mem_cons_of_mem _ (List.mem_cons_of_mem _ hmem.1),
                      List.mem_cons_of_mem _ (List.mem_cons_of_mem _ hmem.2)⟩

deriving instance DecidableEq for Except

theorem buildProcessList_length (run_id : Nat) (protocol : Protocol) (rsa : String) :
    (buildProcessList run_id protocol rsa).length = protocol.operations.length + 2 := by
  simp [buildProcessList]

/-- Decomposition of a successful `buildPosted` into its stages. -/
theorem buildPosted_ok_elim :
    ∀ (env : SimEnv) (run_id : Nat) (protocol : Protocol) (machines : List Operator)
      (rsa : String) (res : List Operation × List (Node × Node) × List (Nat × Nat)),
      buildPosted env run_id protocol machines rsa = Except.ok res →
      ∃ process_list operation_list tops,
        exMapM (Process.post env) (buildProcessList run_id protocol rsa)
          = Except.ok process_list ∧
        exMapM (Process.operation_mapping env.pick machines) process_list
          = Except.ok operation_list ∧
        connection_to_operation protocol.connections process_list operation_list rsa
          = Except.ok (tops, res.2.1) ∧
        exMapM (Operation.post env) (operation_list ++ tops) = Except.ok res.1 := by
  intro env run_id protocol machines rsa res h
  unfold buildPosted at h
  split at h
  · exact absurd h (by simp)
  · rename_i process_list hpl
    split at h
    · exact absurd h (by simp)
    · rename_i operation_list hol
      split at h
      · exact absurd h (by simp)
      · rename_i tops edge_list hc2o
        split at h
        · exact absurd h (by simp)
        · rename_i posted_ops hpo
          split at h
          · exact absurd h (by simp)
          · rename_i edge_ids hei
            rw [← Except.ok.inj h]
            exact ⟨process_list, operation_list, tops, hpl, hol, hc2o, hpo⟩

/-- C4: on success the builder produces exactly N + 2 + T operations for N
declared processes and T non-data connections, D + 2T edges for D data
connections; every transport operation is flagged `is_transport`, carries
the (false) `is_data` flag copied from its non-data connection, is named
after the connection and owned by the source process; each data connection
yields one direct edge between the endpoint step operations, each non-data
connection the two edges through its transport operation. -/
theorem builder_operation_count :
    ∀ (env : SimEnv) (run_id : Nat) (protocol : Protocol) (machines : List Operator)
      (rsa : String) (ops : List Operation) (edges : List (Node × Node)) (evs : List Ev),
      create_process_and_operation_and_edge env run_id protocol machines rsa
        = (Except.ok (ops, edges), evs) →
      ops.length = protocol.operations.length + 2
        + (protocol.connections.filter (fun c => !c.is_data)).length ∧
      edges.length = (protocol.connections.filter (fun c => c.is_data)).length
        + 2 * (protocol.connections.filter (fun c => !c.is_data)).length ∧
      (∀ op ∈ ops, op.is_transport = true → ∃ c ∈ protocol.connections,
        c.is_data = false ∧ op.is_data = c.is_data ∧ op.name = transportName c ∧
        op.process_name = c.input_source) ∧
      (∀ c ∈ protocol.connections, ∃ fn tn,
        (∃ o ∈ ops, o.is_transport = false ∧ o.process_name = c.input_source ∧
          o.name = fn) ∧
        (∃ o ∈ ops, o.is_transport = false ∧ o.process_name = c.output_source ∧
          o.name = tn) ∧
        (if c.is_data then (fn, tn) ∈ edges
         else (fn, transportName c) ∈ edges ∧ (transportName c, tn) ∈ edges)) := by
  intro env run_id protocol machines rsa ops edges evs h
  unfold create_process_and_operation_and_edge at h
  split at h
  · exact absurd (congrArg Prod.fst h) (by simp)
  · rename_i po el ei heq
    have h1 := congrArg Prod.fst h
    simp only [] at h1
    have h2 := Except.ok.inj h1
    injection h2 with h3 h4
    have h3' := h3.symm
    have h4' := h4.symm
    subst h3'
    subst h4'
    obtain ⟨pl, ol, tops, hpl, hol, hc2o, hpo⟩ :=
      buildPosted_ok_elim env run_id protocol machines rsa (ops, edges, ei) heq
    obtain ⟨c1, c2, c3, c4⟩ :=
      connection_to_operation_spec protocol.connections pl ol rsa (tops, edges) hc2o
    have lpo : ops.length = (ol ++ tops).length :=
      exMapM_ok_length (Operation.post env) (ol ++ tops) ops hpo
    have lol : ol.length = pl.length :=
      exMapM_ok_length (Process.operation_mapping env.pick machines) pl ol hol
    have lpl : pl.length = (buildProcessList run_id protocol rsa).length :=
      exMapM_ok_length (Process.post env) (buildProcessList run_id protocol rsa) pl hpl
    refine ⟨?_, ?_, ?_, ?_⟩
    · rw [lpo, List.length_append, lol, lpl, buildProcessList_length]
      simp only [] at c1
      omega
    · simpa using c2
    · intro op hop htr
      obtain ⟨a, ha, hpost⟩ := exMapM_mem_of (Operation.post env) (ol ++ tops) ops hpo op hop
      obtain ⟨hn, hpn, htp, hdp⟩ := op_post_preserves env a op hpost
      rcases List.mem_append.mp ha with ha' | ha'
      · obtain ⟨p, hp, hmap⟩ :=
          exMapM_mem_of (Process.operation_mapping env.pick machines) pl ol hol a ha'
        have hnt := operation_mapping_not_transport env.pick machines p a hmap
        rw [htp, hnt] at htr
        exact absurd htr (by simp)
      · obtain ⟨c, hc, hcd, sp, hsp, ha2⟩ := c3 a ha'
        refine ⟨c, hc, hcd, ?_, ?_, ?_⟩
        · rw [hdp, ha2]
          rfl
        · rw [hn, ha2]
          rfl
        · rw [hpn, ha2]
          show sp.id_in_protocol = c.input_source
          have := List.find?_some hsp
          simpa using this
    · intro c hc
      obtain ⟨ofrom, oto, hfrom, hto, hmem⟩ := c4 c hc
      have hfmem : ofrom ∈ ol := List.mem_of_find?_eq_some hfrom
      have htmem : oto ∈ ol := List.mem_of_find?_eq_some hto
      obtain ⟨b1, hb1, hpost1⟩ := exMapM_forall (Operation.post env) (ol ++ tops) ops hpo
        ofrom (List.mem_append_left tops hfmem)
      obtain ⟨b2, hb2, hpost2⟩ := exMapM_forall (Operation.post env) (ol ++ tops) ops hpo
        oto (List.mem_append_left tops htmem)
      obtain ⟨hn1, hpn1, htp1, _⟩ := op_post_preserves env ofrom b1 hpost1
      obtain ⟨hn2, hpn2, htp2, _⟩ := op_post_preserves env oto b2 hpost2
      obtain ⟨p1, hp1, hmap1⟩ :=
        exMapM_mem_of (Process.operation_mapping env.pick machines) pl ol hol ofrom hfmem
      obtain ⟨p2, hp2, hmap2⟩ :=
        exMapM_mem_of (Process.operation_mapping env.pick machines) pl ol hol oto htmem
      have hnt1 := operation_mapping_not_transport env.pick machines p1 ofrom hmap1
      have hnt2 := operation_mapping_not_transport env.pick machines p2 oto hmap2
      refine ⟨ofrom.name, oto.name, ⟨b1, hb1, ?_, ?_, hn1⟩, ⟨b2, hb2, ?_, ?_, hn2⟩, hmem⟩
      · rw [htp1, hnt1]
      · rw [hpn1]
        have := List.find?_some hfrom
        simpa using this
      · rw [htp2, hnt2]
      · rw [hpn2]
        have := List.find?_some hto
        simpa using this

/-- C4 witness: the protocol with no declared process and the single
non-data connection input→output yields the two sentinel operations plus
one transport operation (N = 0, D = 0, T = 1: three operations, two
edges through the transport). -/
theorem builder_operation_count_witness :
    create_process_and_operation_and_edge env0 1
      (Protocol.mk [] [Conn.mk "input" "o" "output" "i" false]) [] "runs/1/"
      = (Except.ok
          ([Operation.mk 5 105 "input" "input" none none "not started"
              "runs/1/operations/5/" "runs/1/" false false,
            Operation.mk 6 106 "output" "output" none none "not started"
              "runs/1/operations/6/" "runs/1/" false false,
            Operation.mk 16 105 "input" "input_o_output_i" none none "not started"
              "runs/1/operations/16/" "runs/1/" true false],
           [("input", "input_o_output_i"), ("input_o_output_i", "output")]),
         [Ev.postEdge 1 5 16 200, Ev.postEdge 1 16 6 200]) ∧
    ([Operation.mk 5 105 "input" "input" none none "not started"
        "runs/1/operations/5/" "runs/1/" false false,
      Operation.mk 6 106 "output" "output" none none "not started"
        "runs/1/operations/6/" "runs/1/" false false,
      Operation.mk 16 105 "input" "input_o_output_i" none none "not started"
        "runs/1/operations/16/" "runs/1/" true false] : List Operation).length
      = (Protocol.mk [] [Conn.mk "input" "o" "output" "i" false]).operations.length + 2
        + ((Protocol.mk [] [Conn.mk "input" "o" "output" "i" false]).connections.filter
            (fun c => !c.is_data)).length :=
  ⟨by decide,
    (builder_operation_count env0 1
      (Protocol.mk [] [Conn.mk "input" "o" "output" "i" false]) [] "runs/1/"
      [Operation.mk 5 105 "input" "input" none none "not started"
          "runs/1/operations/5/" "runs/1/" false false,
        Operation.mk 6 106 "output" "output" none none "not started"
          "runs/1/operations/6/" "runs/1/" false false,
        Operation.mk 16 105 "input" "input_o_output_i" none none "not started"
          "runs/1/operations/16/" "runs/1/" true false]
      [("input", "input_o_output_i"), ("input_o_output_i", "output")]
      [Ev.postEdge 1 5 16 200, Ev.postEdge 1 16 6 200] (by decide)).1⟩

/-- C7 (amended): Run, Process and Operation registration failures — a
non-success response or a response missing `id` — are propagated as
errors, and any failure inside the build aborts the builder with that
error; Edge registration (lines 334-342) is the exception: its responses
are never read, so the builder's result is the same whatever statuses the
edge posts return — a failing edge registration is silently ignored. -/
theorem registration_failure_propagation_amended :
    (∀ (env : SimEnv) (op : Operation), env.opPostStatus op.name ≠ 200 →
      Operation.post env op = Except.error "Failed to create operation") ∧
    (∀ (env : SimEnv) (op : Operation), env.opPostStatus op.name = 200 →
      env.opPostId op.name = none →
      Operation.post env op
        = Except.error "Unexpected response format. Expected id field") ∧
    (∀ (env : SimEnv) (p : Process), env.procPostStatus p.id_in_protocol ≠ 200 →
      Process.post env p = Except.error "Failed to create process") ∧
    (∀ (env : SimEnv) (p : Process), env.procPostStatus p.id_in_protocol = 200 →
      env.procPostId p.id_in_protocol = none →
      Process.post env p
        = Except.error "Unexpected response format. Expected id field") ∧
    (∀ env : SimEnv, env.runPostStatus ≠ 200 →
      createRun env = Except.error "Failed to create run") ∧
    (∀ env : SimEnv, env.runPostStatus = 200 → env.runPostId = none →
      createRun env = Except.error "Unexpected response format from log server") ∧
    (∀ (env : SimEnv) (run_id : Nat) (protocol : Protocol) (machines : List Operator)
      (rsa : String) (e : String),
      buildPosted env run_id protocol machines rsa = Except.error e →
      create_process_and_operation_and_edge env run_id protocol machines rsa
        = (Except.error e, [])) ∧
    (∀ (env : SimEnv) (f : Nat → Nat → Nat) (run_id : Nat) (protocol : Protocol)
      (machines : List Operator) (rsa : String),
      (create_process_and_operation_and_edge { env with edgePostStatus := f }
        run_id protocol machines rsa).1
        = (create_process_and_operation_and_edge env run_id protocol machines rsa).1) := by
  refine ⟨?_, ?_, ?_, ?_, ?_, ?_, ?_, ?_⟩
  · intro env op hs
    simp only [Operation.post, if_neg hs]
  · intro env op hs hid
    simp only [Operation.post, if_pos hs, hid]
  · intro env p hs
    simp only [Process.post, if_neg hs]
  · intro env p hs hid
    simp only [Process.post, if_pos hs, hid]
  · intro env hs
    simp only [createRun, if_neg hs]
  · intro env hs hid
    simp only [createRun, if_pos hs, hid]
  · intro env run_id protocol machines rsa e he
    simp only [create_process_and_operation_and_edge, he]
  · intro env f run_id protocol machines rsa
    have hb : buildPosted { env with edgePostStatus := f } run_id protocol machines rsa
        = buildPosted env run_id protocol machines rsa := rfl
    unfold create_process_and_operation_and_edge
    rw [hb]
    cases hbp : buildPosted env run_id protocol machines rsa with
    | error e => rfl
    | ok res =>
      obtain ⟨po, el, ei⟩ := res
      rfl

/-- C7 counterexample: with an environment answering 500 to every edge
registration, the builder still returns success and the trace records the
failed edge post with its 500 status — the failure is silently swallowed,
contradicting "no registration failure is silently swallowed". -/
theorem edge_registration_ignored_counterexample :
    create_process_and_operation_and_edge { env0 with edgePostStatus := fun _ _ => 500 } 1
      (Protocol.mk [ProtocolOperation.mk "mix" "t"] [Conn.mk "input" "out" "mix" "in" true])
      [Operator.mk "lh1" "t" none none ""] "runs/1/"
      = (Except.ok
          ([Operation.mk 3 103 "mix" "lh1" none none "not started"
              "runs/1/operations/3/" "runs/1/" false false,
            Operation.mk 5 105 "input" "input" none none "not started"
              "runs/1/operations/5/" "runs/1/" false false,
            Operation.mk 6 106 "output" "output" none none "not started"
              "runs/1/operations/6/" "runs/1/" false false],
           [("input", "lh1")]),
         [Ev.postEdge 1 5 3 500]) := by decide

/-- C7 witness: concrete registration failures propagate with the coded
error messages. -/
theorem registration_failure_propagation_amended_witness :
    Operation.post { env0 with opPostStatus := fun _ => 500 }
      (Operation.mk 0 0 "mix" "lh1" none none "not started" "" "runs/1/" false false)
      = Except.error "Failed to create operation" ∧
    Process.post { env0 with procPostId := fun _ => none }
      (Process.mk 0 1 "t" "mix" "" "runs/1/")
      = Except.error "Unexpected response format. Expected id field" ∧
    createRun { env0 with runPostStatus := 503 } = Except.error "Failed to create run" :=
  ⟨registration_failure_propagation_amended.1 _ _ (by decide),
   registration_failure_propagation_amended.2.2.2.1 _ _ (by decide) (by rfl),
   registration_failure_propagation_amended.2.2.2.2.1 _ (by decide)⟩

/-- C1 counterexample: a declared process with no connections produces
three operations (its step operation and the two sentinels) but an empty
edge list, and `create_plan` of the empty edge list is the empty
schedule: operations incident to no edge are omitted, not included. -/
theorem create_plan_omits_isolated_counterexample :
    create_process_and_operation_and_edge env0 1
      (Protocol.mk [ProtocolOperation.mk "wash" "t"] [])
      [Operator.mk "lh1" "t" none none ""] "runs/1/"
      = (Except.ok
          ([Operation.mk 3 104 "wash" "lh1" none none "not started"
              "runs/1/operations/3/" "runs/1/" false false,
            Operation.mk 5 105 "input" "input" none none "not started"
              "runs/1/operations/5/" "runs/1/" false false,
            Operation.mk 6 106 "output" "output" none none "not started"
              "runs/1/operations/6/" "runs/1/" false false],
           []),
         []) ∧
    create_plan [] = [] ∧
    ("lh1" : Node) ∉ create_plan [] ∧ ("input" : Node) ∉ create_plan [] ∧
    ("output" : Node) ∉ create_plan [] := by
  refine ⟨by decide, by decide, by decide, by decide, by decide⟩

/-! ### Lemmas about the execution driver -/

/-- The db-ids of the `started_at` reports, in trace order. -/
def startReports : List Ev → List Nat
  | [] => []
  | Ev.patchOp i attr _ :: rest =>
    if attr == "started_at" then i :: startReports rest else startReports rest
  | _ :: rest => startReports rest

/-- The scheduled db-ids: each scheduled name resolved through the same
first-match lookup the driver uses. -/
def planIds (ops : List Operation) (plan : List String) : List Nat :=
  plan.map (fun n => (((ops.find? (fun o => o.name == n)).map Operation.db_id).getD 0))

/-- Events that patch a `failed` status. -/
def marksFailed : Ev → Bool
  | Ev.patchOp _ attr v => attr == "status" && v == "failed"
  | Ev.patchRun _ attr v => attr == "status" && v == "failed"
  | _ => false

/-- Run-level patch events. -/
def isRunPatch : Ev → Bool
  | Ev.patchRun _ _ _ => true
  | _ => false

theorem startReports_append (l1 l2 : List Ev) :
    startReports (l1 ++ l2) = startReports l1 ++ startReports l2 := by
  induction l1 with
  | nil => rfl
  | cons e rest ih =>
    cases e with
    | patchOp i attr v =>
      simp only [List.cons_append, startReports]
      split
      · simp [ih]
      · simp [ih]
    | patchRun i attr v => simp [startReports, ih]
    | sleepEv d => simp [startReports, ih]
    | saveEv p c ok => simp [startReports, ih]
    | postEdge r a b s => simp [startReports, ih]

/-- `Operation.run` preserves the name and id, and when nothing raised the
final status is `"completed"` — whatever the storage call returned. -/
theorem op_run_basic (env : SimEnv) (t : Nat) (op : Operation) :
    (Operation.run env t op).op.name = op.name ∧
    (Operation.run env t op).op.db_id = op.db_id ∧
    ((Operation.run env t op).raised = false →
      (Operation.run env t op).op.status = "completed") := by
  simp only [Operation.run]
  split_ifs <;> simp

/-- Each `Operation.run` trace contains exactly one start report, first:
its own id. -/
theorem startReports_op_run (env : SimEnv) (t : Nat) (op : Operation) :
    startReports (Operation.run env t op).trace = [op.db_id] := by
  simp only [Operation.run]
  split_ifs <;> simp [startReports]

/-- No branch of `Operation.run` ever patches a `failed` status. -/
theorem op_run_no_failed (env : SimEnv) (t : Nat) (op : Operation) :
    ∀ e ∈ (Operation.run env t op).trace, marksFailed e = false := by
  simp only [Operation.run]
  split_ifs <;> intro e he <;> fin_cases he <;> simp [marksFailed]

/-- `Operation.run` emits no run-level patch. -/
theorem op_run_no_runpatch (env : SimEnv) (t : Nat) (op : Operation) :
    ∀ e ∈ (Operation.run env t op).trace, isRunPatch e = false := by
  simp only [Operation.run]
  split_ifs <;> intro e he <;> fin_cases he <;> simp [isRunPatch]

/-- Under a non-raising environment, the full lifecycle trace of one
operation, in the coded order: start report, running report, the
simulated work, the storage write (its result recorded but ignored), then
log, finish and completed reports. -/
theorem op_run_trace_no_raise (env : SimEnv) (t : Nat) (op : Operation)
    (h : ∀ i a v, env.patchOpRaises i a v = false) :
    (Operation.run env t op).trace =
      [Ev.patchOp op.db_id "started_at" (toString t),
       Ev.patchOp op.db_id "status" "running",
       Ev.sleepEv (env.dur (t + 1)),
       Ev.saveEv (op.storage_address ++ "log.txt")
         ("Operation " ++ op.name ++ " completed at " ++ toString (t + 1 + env.dur (t + 1)))
         (env.saveOk (op.storage_address ++ "log.txt")),
       Ev.patchOp op.db_id "log"
         ("Operation " ++ op.name ++ " completed at " ++ toString (t + 1 + env.dur (t + 1))),
       Ev.patchOp op.db_id "finished_at" (toString (t + 1 + env.dur (t + 1))),
       Ev.patchOp op.db_id "status" "completed"] ∧
    (Operation.run env t op).raised = false := by
  simp [Operation.run, h]

theorem updateFirst_pairs :
    ∀ (ops : List Operation) (n : String) (newOp : Operation),
      (∀ o, ops.find? (fun o => o.name == n) = some o →
        newOp.name = o.name ∧ newOp.db_id = o.db_id) →
      (updateFirst ops n newOp).map (fun o => (o.name, o.db_id))
        = ops.map (fun o => (o.name, o.db_id)) := by
  intro ops
  induction ops with
  | nil => intro n newOp _; rfl
  | cons o rest ih =>
    intro n newOp h
    by_cases ho : (o.name == n) = true
    · have hfind : (o :: rest).find? (fun o => o.name == n) = some o :=
        List.find?_cons_of_pos rest ho
      obtain ⟨h1, h2⟩ := h o hfind
      simp only [updateFirst, if_pos ho, List.map_cons, h1, h2]
    · have hfind : (o :: rest).find? (fun o => o.name == n)
          = rest.find? (fun o => o.name == n) :=
        List.find?_cons_of_neg rest (by simpa using ho)
      simp only [updateFirst, if_neg ho, List.map_cons]
      congr 1
      refine ih n newOp (fun o' ho' => h o' ?_)
      rw [hfind]
      exact ho'

theorem find_db_eq :
    ∀ (ops ops' : List Operation),
      ops.map (fun o => (o.name, o.db_id)) = ops'.map (fun o => (o.name, o.db_id)) →
      ∀ n, ((ops.find? (fun o => o.name == n)).map Operation.db_id)
        = ((ops'.find? (fun o => o.name == n)).map Operation.db_id) := by
  intro ops
  induction ops with
  | nil =>
    intro ops' h n
    cases ops' with
    | nil => rfl
    | cons _ _ => exact absurd h (by simp)
  | cons o rest ih =>
    intro ops' h n
    cases ops' with
    | nil => exact absurd h (by simp)
    | cons o' rest' =>
      simp only [List.map_cons, List.cons.injEq] at h
      obtain ⟨hpair, hrest⟩ := h
      injection hpair with hname hid
      by_cases ho : (o.name == n) = true
      · have ho' : (o'.name == n) = true := by rw [← hname]; exact ho
        rw [List.find?_cons_of_pos rest ho, List.find?_cons_of_pos rest' ho']
        simp [hid]
      · have ho' : ¬ (o'.name == n) = true := by rw [← hname]; exact ho
        rw [List.find?_cons_of_neg rest (by simpa using ho),
          List.find?_cons_of_neg rest' (by simpa using ho')]
        exact ih rest' hrest n

theorem planIds_congr (ops ops' : List Operation) (plan : List String)
    (h : ops.map (fun o => (o.name, o.db_id)) = ops'.map (fun o => (o.name, o.db_id))) :
    planIds ops plan = planIds ops' plan := by
  induction plan with
  | nil => rfl
  | cons n rest ih =>
    simp only [planIds, List.map_cons] at ih ⊢
    rw [find_db_eq ops ops' h n]
    rw [ih]

theorem exists_name_of_pairs (ops ops' : List Operation)
    (h : ops.map (fun o => (o.name, o.db_id)) = ops'.map (fun o => (o.name, o.db_id)))
    (n : String) (hex : ∃ o ∈ ops, o.name = n) : ∃ o ∈ ops', o.name = n := by
  have hnames : ops.map (fun o => o.name) = ops'.map (fun o => o.name) := by
    have := congrArg (fun l => l.map Prod.fst) h
    simpa [List.map_map, Function.comp] using this
  obtain ⟨o, ho, rfl⟩ := hex
  have h1 : o.name ∈ ops.map (fun o => o.name) := List.mem_map_of_mem _ ho
  rw [hnames] at h1
  obtain ⟨o', ho', he⟩ := List.mem_map.mp h1
  exact ⟨o', ho', he⟩

/-- Behaviour of the execution loop: the recorded start reports are
always a prefix of the scheduled ids (a raise aborts the remainder), the
operations keep their names and ids, under a non-raising environment with
complete lookups the loop finishes and the start reports equal the
schedule exactly, and no event ever marks anything failed or patches the
run. -/
theorem execPlan_spec :
    ∀ (plan : List String) (env : SimEnv) (ops : List Operation) (t : Nat),
      (∃ rest, planIds ops plan
        = startReports (execPlan env ops t plan).trace ++ rest) ∧
      ((execPlan env ops t plan).ops.map (fun o => (o.name, o.db_id))
        = ops.map (fun o => (o.name, o.db_id))) ∧
      ((∀ i a v, env.patchOpRaises i a v = false) →
        (∀ n ∈ plan, ∃ o ∈ ops, o.name = n) →
        (execPlan env ops t plan).raised = false ∧
        startReports (execPlan env ops t plan).trace = planIds ops plan) ∧
      (∀ e ∈ (execPlan env ops t plan).trace, marksFailed e = false) ∧
      (∀ e ∈ (execPlan env ops t plan).trace, isRunPatch e = false) := by
  intro plan env
  induction plan with
  | nil =>
    intro ops t
    refine ⟨⟨[], rfl⟩, rfl, fun _ _ => ⟨rfl, rfl⟩, ?_, ?_⟩
    · intro e he
      exact absurd he (List.not_mem_nil e)
    · intro e he
      exact absurd he (List.not_mem_nil e)
  | cons nm rest' ih =>
    intro ops t
    simp only [execPlan]
    cases hfind : ops.find? (fun o => o.name == nm) with
    | none =>
      refine ⟨⟨planIds ops (nm :: rest'), by simp [startReports]⟩, rfl, ?_, ?_, ?_⟩
      · intro _ hlk
        exfalso
        obtain ⟨o, ho, hn⟩ := hlk nm (List.mem_cons_self nm rest')
        have := List.find?_eq_none.mp hfind o ho
        exact this (by simp [hn])
      · intro e he
        exact absurd he (List.not_mem_nil e)
      · intro e he
        exact absurd he (List.not_mem_nil e)
    | some op =>
      dsimp only
      obtain ⟨hnm, hid, _⟩ := op_run_basic env t op
      have hup : (updateFirst ops nm (Operation.run env t op).op).map
          (fun o => (o.name, o.db_id)) = ops.map (fun o => (o.name, o.db_id)) := by
        apply updateFirst_pairs
        intro o' ho'
        rw [hfind] at ho'
        have heq : op = o' := Option.some.inj ho'
        rw [← heq]
        exact ⟨hnm, hid⟩
      have hgetid : planIds ops (nm :: rest') = op.db_id :: planIds ops rest' := by
        simp [planIds, hfind]
      have hsr := startReports_op_run env t op
      by_cases hrz : (Operation.run env t op).raised = true
      · rw [if_pos hrz]
        refine ⟨⟨planIds ops rest', by rw [hgetid, hsr]; rfl⟩, hup, ?_, ?_, ?_⟩
        · intro hnr _
          exfalso
          have := (op_run_trace_no_raise env t op hnr).2
          rw [this] at hrz
          exact Bool.false_ne_true hrz
        · exact op_run_no_failed env t op
        · exact op_run_no_runpatch env t op
      · have hrz' : (Operation.run env t op).raised = false := by
          revert hrz
          cases (Operation.run env t op).raised <;> simp
        rw [if_neg hrz]
        obtain ⟨⟨restp, ihp⟩, ihpairs, ihexact, ihnf, ihnr⟩ :=
          ih (updateFirst ops nm (Operation.run env t op).op) (Operation.run env t op).time
        have hplan_eq : planIds ops rest'
            = planIds (updateFirst ops nm (Operation.run env t op).op) rest' :=
          planIds_congr ops _ rest' hup.symm
        refine ⟨⟨restp, ?_⟩, ?_, ?_, ?_, ?_⟩
        · rw [startReports_append, hsr, hgetid, hplan_eq, ihp]
          rfl
        · rw [ihpairs, hup]
        · intro hnr hlk
          obtain ⟨hr0, hsr0⟩ := ihexact hnr (fun n hn =>
            exists_name_of_pairs ops _ hup.symm n (hlk n (List.mem_cons_of_mem nm hn)))
          refine ⟨hr0, ?_⟩
          rw [startReports_append, hsr, hsr0, ← hplan_eq, hgetid]
          rfl
        · intro e he
          rcases List.mem_append.mp he with he' | he'
          · exact op_run_no_failed env t op e he'
          · exact ihnf e he'
        · intro e he
          rcases List.mem_append.mp he with he' | he'
          · exact op_run_no_runpatch env t op e he'
          · exact ihnr e he'

/-- C5: the driver processes operations strictly in scheduler order: for
each operation the collaborator calls follow the fixed lifecycle sequence
(start report, running report, simulated work, storage write of the
completion log line, then log, finish and completed reports), and with a
non-raising log server the recorded start-report sequence equals the
scheduled sequence. -/
theorem driver_schedule_order :
    (∀ (env : SimEnv) (t : Nat) (op : Operation),
      (∀ i a v, env.patchOpRaises i a v = false) →
      (Operation.run env t op).trace =
        [Ev.patchOp op.db_id "started_at" (toString t),
         Ev.patchOp op.db_id "status" "running",
         Ev.sleepEv (env.dur (t + 1)),
         Ev.saveEv (op.storage_address ++ "log.txt")
           ("Operation " ++ op.name ++ " completed at " ++ toString (t + 1 + env.dur (t + 1)))
           (env.saveOk (op.storage_address ++ "log.txt")),
         Ev.patchOp op.db_id "log"
           ("Operation " ++ op.name ++ " completed at " ++ toString (t + 1 + env.dur (t + 1))),
         Ev.patchOp op.db_id "finished_at" (toString (t + 1 + env.dur (t + 1))),
         Ev.patchOp op.db_id "status" "completed"]) ∧
    (∀ (env : SimEnv) (run_id t : Nat) (ops : List Operation) (plan : List String),
      (∀ i a v, env.patchOpRaises i a v = false) →
      (∀ i a v, env.patchRunRaises i a v = false) →
      (∀ n ∈ plan, ∃ o ∈ ops, o.name = n) →
      (runDriver env run_id ops plan t).raised = false ∧
      startReports (runDriver env run_id ops plan t).trace = planIds ops plan) := by
  constructor
  · intro env t op h
    exact (op_run_trace_no_raise env t op h).1
  · intro env run_id t ops plan hop hrun hlk
    obtain ⟨_, _, hexact, _, _⟩ := execPlan_spec plan env ops (t + 1)
    obtain ⟨hr, hsr⟩ := hexact hop hlk
    simp only [runDriver, hrun, Bool.false_eq_true, if_false, hr]
    constructor
    · trivial
    · rw [startReports_append, startReports_append, hsr]
      simp [startReports]

/-- C5 witness: a two-operation schedule run under the all-success
environment reports starts exactly in schedule order. -/
theorem driver_schedule_order_witness :
    (runDriver env0 1
      [Operation.mk 7 1 "p1" "x" none none "not started" "sx/" "runs/1/" false false,
       Operation.mk 8 2 "p2" "y" none none "not started" "sy/" "runs/1/" false false]
      ["y", "x"] 0).raised = false ∧
    startReports (runDriver env0 1
      [Operation.mk 7 1 "p1" "x" none none "not started" "sx/" "runs/1/" false false,
       Operation.mk 8 2 "p2" "y" none none "not started" "sy/" "runs/1/" false false]
      ["y", "x"] 0).trace
      = planIds
          [Operation.mk 7 1 "p1" "x" none none "not started" "sx/" "runs/1/" false false,
           Operation.mk 8 2 "p2" "y" none none "not started" "sy/" "runs/1/" false false]
          ["y", "x"] :=
  driver_schedule_order.2 env0 1 0
    [Operation.mk 7 1 "p1" "x" none none "not started" "sx/" "runs/1/" false false,
     Operation.mk 8 2 "p2" "y" none none "not started" "sy/" "runs/1/" false false]
    ["y", "x"] (fun _ _ _ => rfl) (fun _ _ _ => rfl) (by decide)

/-- C3 counterexample: a failing storage write (the save event carries
`false`) neither marks the operation failed nor aborts nor marks the Run
failed — the operation ends `completed`, the Run is patched `completed`,
and no event in the whole trace carries a `failed` status, contradicting
the claimed fail-fast behaviour. -/
theorem driver_storage_failure_counterexample :
    (runDriver { env0 with saveOk := fun _ => false } 1
      [Operation.mk 7 1 "p1" "x" none none "not started" "sx/" "runs/1/" false false]
      ["x"] 0).raised = false ∧
    Ev.saveEv "sx/log.txt" "Operation x completed at 3" false ∈
      (runDriver { env0 with saveOk := fun _ => false } 1
        [Operation.mk 7 1 "p1" "x" none none "not started" "sx/" "runs/1/" false false]
        ["x"] 0).trace ∧
    (runDriver { env0 with saveOk := fun _ => false } 1
      [Operation.mk 7 1 "p1" "x" none none "not started" "sx/" "runs/1/" false false]
      ["x"] 0).ops.map Operation.status = ["completed"] ∧
    Ev.patchRun 1 "status" "completed" ∈
      (runDriver { env0 with saveOk := fun _ => false } 1
        [Operation.mk 7 1 "p1" "x" none none "not started" "sx/" "runs/1/" false false]
        ["x"] 0).trace ∧
    (∀ e ∈ (runDriver { env0 with saveOk := fun _ => false } 1
        [Operation.mk 7 1 "p1" "x" none none "not started" "sx/" "runs/1/" false false]
        ["x"] 0).trace, marksFailed e = false) := by
  refine ⟨by decide, by decide, by decide, by decide, by decide⟩

/-- C3 (amended): a storage write failure is ignored — the operation still
ends `completed` whenever its upstream reports do not raise, whatever the
storage call returned; a raising upstream call aborts the in-flight
operation's remaining reports and all subsequent scheduled operations
(the recorded start reports always form a prefix of the schedule); but
neither the operation nor the Run is ever marked failed — no event in any
trace patches a `failed` status; and with non-raising run-level patches
the Run is reported `completed` exactly when the schedule ran without a
raise. -/
theorem driver_failure_handling_amended :
    (∀ (env : SimEnv) (t : Nat) (op : Operation),
      (Operation.run env t op).raised = false →
      (Operation.run env t op).op.status = "completed") ∧
    (∀ (env : SimEnv) (run_id t : Nat) (ops : List Operation) (plan : List String),
      ∃ rest, planIds ops plan
        = startReports (runDriver env run_id ops plan t).trace ++ rest) ∧
    (∀ (env : SimEnv) (run_id t : Nat) (ops : List Operation) (plan : List String),
      ∀ e ∈ (runDriver env run_id ops plan t).trace, marksFailed e = false) ∧
    (∀ (env : SimEnv) (run_id t : Nat) (ops : List Operation) (plan : List String),
      (∀ i a v, env.patchRunRaises i a v = false) →
      ((runDriver env run_id ops plan t).raised = false ↔
        Ev.patchRun run_id "status" "completed"
          ∈ (runDriver env run_id ops plan t).trace)) := by
  refine ⟨?_, ?_, ?_, ?_⟩
  · intro env t op h
    exact (op_run_basic env t op).2.2 h
  · intro env run_id t ops plan
    obtain ⟨⟨restp, ihp⟩, _, _, _, _⟩ := execPlan_spec plan env ops (t + 1)
    simp only [runDriver]
    split_ifs
    · exact ⟨planIds ops plan, by simp [startReports]⟩
    · exact ⟨planIds ops plan, by simp [startReports]⟩
    · exact ⟨restp, by rw [startReports_append]; simpa [startReports] using ihp⟩
    · exact ⟨restp, by
        rw [startReports_append, startReports_append]
        simpa [startReports] using ihp⟩
    · exact ⟨restp, by
        rw [startReports_append, startReports_append]
        simpa [startReports] using ihp⟩
    · exact ⟨restp, by
        rw [startReports_append, startReports_append]
        simpa [startReports] using ihp⟩
  · intro env run_id t ops plan
    obtain ⟨_, _, _, hnf, _⟩ := execPlan_spec plan env ops (t + 1)
    simp only [runDriver]
    split_ifs <;> intro e he
    · simp only [List.mem_singleton] at he
      subst he
      simp [marksFailed]
    · rcases List.mem_cons.mp he with rfl | he
      · simp [marksFailed]
      · simp only [List.mem_singleton] at he
        subst he
        simp [marksFailed]
    · rcases List.mem_append.mp he with he | he
      · rcases List.mem_cons.mp he with rfl | he
        · simp [marksFailed]
        · simp only [List.mem_singleton] at he
          subst he
          simp [marksFailed]
      · exact hnf e he
    · rcases List.mem_append.mp he with he | he
      · rcases List.mem_append.mp he with he | he
        · rcases List.mem_cons.mp he with rfl | he
          · simp [marksFailed]
          · simp only [List.mem_singleton] at he
            subst he
            simp [marksFailed]
        · exact hnf e he
      · simp only [List.mem_singleton] at he
        subst he
        simp [marksFailed]
    · rcases List.mem_append.mp he with he | he
      · rcases List.mem_append.mp he with he | he
        · rcases List.mem_cons.mp he with rfl | he
          · simp [marksFailed]
          · simp only [List.mem_singleton] at he
            subst he
            simp [marksFailed]
        · exact hnf e he
      · rcases List.mem_cons.mp he with rfl | he
        · simp [marksFailed]
        · simp only [List.mem_singleton] at he
          subst he
          simp [marksFailed]
    · rcases List.mem_append.mp he with he | he
      · rcases List.mem_append.mp he with he | he
        · rcases List.mem_cons.mp he with rfl | he
          · simp [marksFailed]
          · simp only [List.mem_singleton] at he
            subst he
            simp [marksFailed]
        · exact hnf e he
      · rcases List.mem_cons.mp he with rfl | he
        · simp [marksFailed]
        · simp only [List.mem_singleton] at he
          subst he
          simp [marksFailed]
  · intro env run_id t ops plan hrun
    obtain ⟨_, _, _, _, hnrp⟩ := execPlan_spec plan env ops (t + 1)
    simp only [runDriver, hrun, Bool.false_eq_true, if_false]
    by_cases hrz : (execPlan env ops (t + 1) plan).raised = true
    · simp only [hrz, if_true]
      constructor
      · intro h
        simp at h
      · intro hmem
        exfalso
        rcases List.mem_append.mp hmem with hmem | hmem
        · simp at hmem
        · have := hnrp _ hmem
          simp [isRunPatch] at this
    · simp only [hrz, if_false]
      constructor
      · intro _
        refine List.mem_append_right _ ?_
        exact List.mem_cons_of_mem _ (List.mem_singleton.mpr rfl)
      · intro _
        rfl

/-- C3 witness: the amended behaviour at concrete inputs: even with a
failing storage backend the operation ends `completed`, and under the
all-success environment the Run-completed report is present exactly when
nothing raised. -/
theorem driver_failure_handling_amended_witness :
    (Operation.run { env0 with saveOk := fun _ => false } 0
      (Operation.mk 7 1 "p1" "x" none none "not started" "sx/" "runs/1/" false false)).op.status
      = "completed" ∧
    ((runDriver env0 1
      [Operation.mk 7 1 "p1" "x" none none "not started" "sx/" "runs/1/" false false]
      ["x"] 0).raised = false ↔
      Ev.patchRun 1 "status" "completed" ∈
        (runDriver env0 1
          [Operation.mk 7 1 "p1" "x" none none "not started" "sx/" "runs/1/" false false]
          ["x"] 0).trace) :=
  ⟨driver_failure_handling_amended.1 { env0 with saveOk := fun _ => false } 0
      (Operation.mk 7 1 "p1" "x" none none "not started" "sx/" "runs/1/" false false)
      (by decide),
   driver_failure_handling_amended.2.2.2 env0 1 0
      [Operation.mk 7 1 "p1" "x" none none "not started" "sx/" "runs/1/" false false]
      ["x"] (fun _ _ _ => rfl)⟩

/-- C1 (amended): for every acyclic edge set given to the scheduler, the
returned order is duplicate-free, contains exactly the operations
incident to at least one edge — disconnected subgraphs included,
operations incident to no edge omitted — and for every edge (a→b) the
position of a strictly precedes the position of b. -/
theorem create_plan_topological_amended (conns : List (Node × Node))
    (hac : Acyclic conns) :
    (create_plan conns).Nodup ∧
    (∀ x, x ∈ create_plan conns ↔ ∃ e ∈ conns, e.1 = x ∨ e.2 = x) ∧
    (∀ u v, (u, v) ∈ conns → [u, v].Sublist (create_plan conns)) :=
  create_plan_correct conns hac

/-- C1 witness: the amended theorem applied to the concrete acyclic edge
set [(a,b), (b,c), (d,c)], acyclicity witnessed by a rank function. -/
theorem create_plan_topological_amended_witness :
    Acyclic [("a", "b"), ("b", "c"), ("d", "c")] ∧
    ((create_plan [("a", "b"), ("b", "c"), ("d", "c")]).Nodup ∧
     (∀ x, x ∈ create_plan [("a", "b"), ("b", "c"), ("d", "c")] ↔
        ∃ e ∈ [(("a" : Node), ("b" : Node)), ("b", "c"), ("d", "c")], e.1 = x ∨ e.2 = x) ∧
     (∀ u v, (u, v) ∈ [(("a" : Node), ("b" : Node)), ("b", "c"), ("d", "c")] →
        [u, v].Sublist (create_plan [("a", "b"), ("b", "c"), ("d", "c")]))) :=
  have hac : Acyclic [("a", "b"), ("b", "c"), ("d", "c")] :=
    acyclic_of_rank _ (fun s => if s = "b" then 1 else if s = "c" then 2 else 0)
      (by decide)
  ⟨hac, create_plan_topological_amended [("a", "b"), ("b", "c"), ("d", "c")] hac⟩
